import Mathlib

set_option linter.unusedVariables false

/-! Verification of the cuisine-combination analysis engine of app.py.

The first part of this file is a shallow embedding of the Python source:
a typed model of the raw variant records together with the extractor,
normalizer, grouping and aggregation stages of parse_restaurant_variants,
and a second, dynamically typed (JSON-value) model of the same function
used to reason about its failure behaviour.  The remainder states and
proves properties of those definitions. -/

/-- Insertion into a Python set modelled as an insertion-ordered
duplicate-free list: adding an element that is already present leaves the
list unchanged, otherwise it is appended at the end. -/
def setAdd {α : Type} [DecidableEq α] (l : List α) (x : α) : List α :=
  if x ∈ l then l else l ++ [x]

/-- Raw category record of the JSON input (fields "_id", "name",
"parentCategories"); a `none` field models an absent key. -/
inductive Category where
  | mk : Option String → Option String → Option (List Category) → Category

/-- The "_id" field of a raw category. -/
def Category.idField : Category → Option String
  | .mk i _ _ => i

/-- The "name" field of a raw category. -/
def Category.nameField : Category → Option String
  | .mk _ n _ => n

/-- The "parentCategories" field of a raw category. -/
def Category.parentCategories : Category → Option (List Category)
  | .mk _ _ p => p

/-- Raw service record of the JSON input (field "serviceName"). -/
structure Service where
  serviceName : Option String
deriving DecidableEq

/-- Raw menu-item record of the JSON input (fields "cuisine", "category"). -/
structure MenuItem where
  cuisine : Option (List String)
  category : Option (List Category)

/-- Raw variant record of the JSON input; every field the source reads with
a `.get(key, default)` lookup is modelled as optional. -/
structure RawVariant where
  idField : Option String
  name : Option String
  packageId : Option String
  cost : Option Rat
  minPersons : Option Int
  maxPersons : Option Int
  isCustomized : Option Bool
  venueId : Option String
  menuItems : Option (List MenuItem)
  freeServices : Option (List Service)
  paidServices : Option (List Service)

/-- Model of extract_categories_from_menu_item (app.py lines 127-145):
for each category of the menu item, if it has a non-empty parentCategories
list the (id, name) pairs of the parents are added to the result set,
otherwise the category's own (id, name) pair is; missing id/name fields
default to the empty string. -/
def extract_categories_from_menu_item (menu_item : MenuItem) : List (String × String) :=
  (menu_item.category.getD []).foldl (fun categories category =>
    let parent_categories := category.parentCategories.getD []
    if parent_categories.isEmpty then
      setAdd categories (category.idField.getD "", category.nameField.getD "")
    else
      parent_categories.foldl (fun cs parent_cat =>
        setAdd cs (parent_cat.idField.getD "", parent_cat.nameField.getD "")) categories) []

/-- Model of extract_services_from_variant (app.py lines 147-174): collects
the serviceName of each entry of freeServices and paidServices in order,
skipping entries whose name is missing or empty. -/
def extract_services_from_variant (variant : RawVariant) : List String × List String :=
  let free_services := (variant.freeServices.getD []).foldl (fun acc service =>
    let service_name := service.serviceName.getD ""
    if service_name ≠ "" then acc ++ [service_name] else acc) []
  let paid_services := (variant.paidServices.getD []).foldl (fun acc service =>
    let service_name := service.serviceName.getD ""
    if service_name ≠ "" then acc ++ [service_name] else acc) []
  (free_services, paid_services)

/-- Code-point comparison of two character lists: the lexicographic order
Python uses on strings. -/
def charsLeB : List Char → List Char → Bool
  | [], _ => true
  | _ :: _, [] => false
  | c :: cs, d :: ds =>
    if c.toNat < d.toNat then true
    else if d.toNat < c.toNat then false
    else charsLeB cs ds

/-- Python string comparison, lexicographic by Unicode code point. -/
def strLeB (a b : String) : Bool := charsLeB a.data b.data

/-- The Python string order as a relation. -/
def strLe (a b : String) : Prop := strLeB a b = true

instance : DecidableRel strLe := fun _ _ => inferInstanceAs (Decidable (_ = true))

/-- Python sorted on a list of strings: lexicographic by code point, stable
(modelled by the stable insertion sort). -/
def sortedStrings (l : List String) : List String :=
  List.insertionSort strLe l

/-- The flat per-variant record built by the loop body of
parse_restaurant_variants (app.py lines 227-244). -/
structure NormalizedVariant where
  variant_id : String
  variant_name : String
  cuisines : List String
  cuisine_count : Nat
  menu_items_count : Nat
  categories : List (String × String)
  categories_count : Nat
  cost : Rat
  min_persons : Int
  max_persons : Int
  is_customized : Bool
  venue_id : String
  free_services : List String
  paid_services : List String
  free_services_count : Nat
  paid_services_count : Nat
deriving DecidableEq

/-- Model of the per-variant normalization loop body of
parse_restaurant_variants (app.py lines 201-244).  The cuisine and category
sets are modelled as insertion-ordered duplicate-free lists; the cuisine set
is then sorted, exactly as in the source. -/
def normalizeVariant (variant : RawVariant) : NormalizedVariant :=
  let variant_id := variant.idField.getD "unknown"
  let variant_name := variant.name.getD "unnamed"
  let menu_items := variant.menuItems.getD []
  let venue_id := variant.venueId.getD ""
  let cost := variant.cost.getD 0
  let fp := extract_services_from_variant variant
  let variant_cuisines := menu_items.foldl
    (fun acc menu_item => (menu_item.cuisine.getD []).foldl setAdd acc) []
  let variant_categories := menu_items.foldl
    (fun acc menu_item => (extract_categories_from_menu_item menu_item).foldl setAdd acc) []
  let variant_cuisine_list := sortedStrings variant_cuisines
  { variant_id := variant_id
    variant_name := variant_name
    cuisines := variant_cuisine_list
    cuisine_count := variant_cuisine_list.length
    menu_items_count := menu_items.length
    categories := variant_categories
    categories_count := variant_categories.length
    cost := cost
    min_persons := variant.minPersons.getD 0
    max_persons := variant.maxPersons.getD 0
    is_customized := variant.isCustomized.getD false
    venue_id := venue_id
    free_services := fp.1
    paid_services := fp.2
    free_services_count := fp.1.length
    paid_services_count := fp.2.length }

/-- One insertion into the defaultdict of app.py lines 250-253: if the key
is already present the variant is appended to that entry, otherwise a new
entry is appended at the end (Python dicts preserve insertion order). -/
def groupInsert (key : List String) (v : NormalizedVariant) :
    List (List String × List NormalizedVariant) → List (List String × List NormalizedVariant)
  | [] => [(key, [v])]
  | (k, vs) :: rest =>
    if k = key then (k, vs ++ [v]) :: rest else (k, vs) :: groupInsert key v rest

/-- Model of the grouping loop of app.py lines 250-253: every normalized
variant (including those with an empty cuisine list) is appended to the
group keyed by its sorted cuisine list. -/
def combination_groups (nvs : List NormalizedVariant) :
    List (List String × List NormalizedVariant) :=
  nvs.foldl (fun acc v => groupInsert v.cuisines v acc) []

/-- Python min over a nonempty list of numbers (the empty case is never
reached by the source, which guards with a truthiness test). -/
def listMin (l : List Rat) : Rat :=
  match l with
  | [] => 0
  | x :: xs => xs.foldl min x

/-- Python max over a nonempty list of numbers. -/
def listMax (l : List Rat) : Rat :=
  match l with
  | [] => 0
  | x :: xs => xs.foldl max x

/-- Python sum over a list of numbers. -/
def listSum (l : List Rat) : Rat := l.foldl (· + ·) 0

/-- The price_range dictionary of app.py lines 258-264. -/
structure PriceRange where
  min_price : Rat
  max_price : Rat
  average_price : Rat
deriving DecidableEq

/-- The cuisine_stats dictionary of app.py lines 266-271. -/
structure CuisineStats where
  unique_cuisine_ids : List String
  total_cuisine_count : Nat
deriving DecidableEq

/-- The menu_stats dictionary of app.py lines 279-283. -/
structure MenuStats where
  total_menu_items : Nat
  total_unique_categories : Nat
  category_names : List String
deriving DecidableEq

/-- The venue_stats dictionary of app.py lines 286-290. -/
structure VenueStats where
  total_unique_venues : Nat
  venue_ids : List String
deriving DecidableEq

/-- The service_stats dictionary of app.py lines 304-309. -/
structure ServiceStats where
  total_unique_free_services : Nat
  free_service_names : List String
  total_unique_paid_services : Nat
  paid_service_names : List String
deriving DecidableEq

/-- One entry of matching_variants (app.py lines 312-321). -/
structure MatchingVariant where
  variant_id : String
  variant_name : String
  cost : Rat
  venue_id : String
  free_services_count : Nat
  paid_services_count : Nat
deriving DecidableEq

/-- One entry of sorted_cuisine_combinations (app.py lines 323-333). -/
structure CombinationGroup where
  cuisine_combination : List String
  frequency : Nat
  combination_size : Nat
  matching_variants : List MatchingVariant
  price_range : PriceRange
  cuisine_stats : CuisineStats
  menu_stats : MenuStats
  venue_stats : VenueStats
  service_stats : ServiceStats
deriving DecidableEq

/-- The restaurant_data entry of app.py lines 338-342. -/
structure RestaurantData where
  restaurant_id : String
  total_variants : Nat
  variants : List NormalizedVariant
deriving DecidableEq

/-- The summary dictionary of app.py lines 350-355; restaurant_id is None
for an empty variant list and a string otherwise. -/
structure Summary where
  total_variants : Nat
  total_unique_cuisine_combinations : Nat
  total_unique_cuisines : Nat
  restaurant_id : Option String
deriving DecidableEq

/-- The full return value of parse_restaurant_variants. -/
structure AnalysisResult where
  restaurant_data : List RestaurantData
  sorted_cuisine_combinations : List CombinationGroup
  all_cuisine_ids : List String
  summary : Summary
deriving DecidableEq

/-- The projection of a group member into matching_variants
(app.py lines 313-321). -/
def projectVariant (v : NormalizedVariant) : MatchingVariant :=
  { variant_id := v.variant_id
    variant_name := v.variant_name
    cost := v.cost
    venue_id := v.venue_id
    free_services_count := v.free_services_count
    paid_services_count := v.paid_services_count }

/-- Model of the per-group statistics block of app.py lines 257-333. -/
def formatCombination (combination : List String)
    (variants_in_combo : List NormalizedVariant) : CombinationGroup :=
  let costs := (variants_in_combo.map (fun v => v.cost)).filter (fun c => decide (0 < c))
  let price_range : PriceRange :=
    { min_price := if costs ≠ [] then listMin costs else 0
      max_price := if costs ≠ [] then listMax costs else 0
      average_price := if costs ≠ [] then listSum costs / (costs.length : Rat) else 0 }
  let unique_cuisines := combination
  let cuisine_stats : CuisineStats :=
    { unique_cuisine_ids := unique_cuisines
      total_cuisine_count := unique_cuisines.length }
  let total_menu_items := (variants_in_combo.map (fun v => v.menu_items_count)).sum
  let all_categories := variants_in_combo.foldl (fun acc v => v.categories.foldl setAdd acc) []
  let menu_stats : MenuStats :=
    { total_menu_items := total_menu_items
      total_unique_categories := all_categories.length
      category_names := (all_categories.filter (fun c => decide (c.2 ≠ ""))).map (fun c => c.2) }
  let unique_venues :=
    ((variants_in_combo.map (fun v => v.venue_id)).filter (fun s => decide (s ≠ ""))).foldl setAdd []
  let venue_stats : VenueStats :=
    { total_unique_venues := unique_venues.length
      venue_ids := unique_venues }
  let all_free_services := variants_in_combo.foldl (fun acc v => acc ++ v.free_services) []
  let all_paid_services := variants_in_combo.foldl (fun acc v => acc ++ v.paid_services) []
  let unique_free_services := all_free_services.foldl setAdd []
  let unique_paid_services := all_paid_services.foldl setAdd []
  let service_stats : ServiceStats :=
    { total_unique_free_services := unique_free_services.length
      free_service_names := unique_free_services
      total_unique_paid_services := unique_paid_services.length
      paid_service_names := unique_paid_services }
  let matching_variants := variants_in_combo.map projectVariant
  { cuisine_combination := combination
    frequency := variants_in_combo.length
    combination_size := combination.length
    matching_variants := matching_variants
    price_range := price_range
    cuisine_stats := cuisine_stats
    menu_stats := menu_stats
    venue_stats := venue_stats
    service_stats := service_stats }

/-- The ordering used at app.py line 336: descending frequency. -/
def freqGE (a b : CombinationGroup) : Prop := b.frequency ≤ a.frequency

instance : DecidableRel freqGE := fun _ _ => Nat.decLe _ _

instance : IsTotal CombinationGroup freqGE :=
  ⟨fun a b => le_total b.frequency a.frequency⟩

instance : IsTrans CombinationGroup freqGE :=
  ⟨fun _ _ _ hab hbc => le_trans hbc hab⟩

/-- Model of formatted_combinations.sort at app.py line 336: Python
list.sort is a stable sort, modelled by the (stable) insertion sort by
descending frequency. -/
def sortCombinations (l : List CombinationGroup) : List CombinationGroup :=
  List.insertionSort freqGE l

/-- The all-zero result returned for an empty variant list
(app.py lines 181-192). -/
def emptyAnalysisResult : AnalysisResult :=
  { restaurant_data := []
    sorted_cuisine_combinations := []
    all_cuisine_ids := []
    summary := { total_variants := 0
                 total_unique_cuisine_combinations := 0
                 total_unique_cuisines := 0
                 restaurant_id := none } }

/-- The restaurant_variants list: the normalization loop appends one flat
record per raw variant, in input order. -/
def restaurantVariantsOf (variants : List RawVariant) : List NormalizedVariant :=
  variants.map normalizeVariant

/-- The all_cuisine_ids accumulator of app.py lines 198 and 217-219: the
source adds every cuisine id of every menu item to one global set while it
loops over the variants; this definition performs the identical sequence of
left-to-right set insertions. -/
def allCuisineIdsOf (variants : List RawVariant) : List String :=
  variants.foldl (fun acc variant =>
    (variant.menuItems.getD []).foldl
      (fun a menu_item => (menu_item.cuisine.getD []).foldl setAdd a) acc) []

/-- The formatted_combinations list before sorting (app.py lines 256-333),
in first-seen key order. -/
def formattedCombinationsOf (variants : List RawVariant) : List CombinationGroup :=
  (combination_groups (restaurantVariantsOf variants)).map
    (fun p => formatCombination p.1 p.2)

/-- Model of parse_restaurant_variants (app.py lines 176-356) on an input
whose "variants" value decodes to a list of variant records.  An empty list
short-circuits to the zeroed result, mirroring the `if not variants` check. -/
def parse_restaurant_variants (variants : List RawVariant) : AnalysisResult :=
  match variants with
  | [] => emptyAnalysisResult
  | v0 :: rest =>
    let restaurant_id := v0.packageId.getD "unknown"
    let restaurant_variants := restaurantVariantsOf (v0 :: rest)
    let formatted_combinations := sortCombinations (formattedCombinationsOf (v0 :: rest))
    let all_cuisine_ids_list := sortedStrings (allCuisineIdsOf (v0 :: rest))
    { restaurant_data := [{ restaurant_id := restaurant_id
                            total_variants := (v0 :: rest).length
                            variants := restaurant_variants }]
      sorted_cuisine_combinations := formatted_combinations
      all_cuisine_ids := all_cuisine_ids_list
      summary := { total_variants := (v0 :: rest).length
                   total_unique_cuisine_combinations := formatted_combinations.length
                   total_unique_cuisines := all_cuisine_ids_list.length
                   restaurant_id := some restaurant_id } }

/-! Dynamically typed model.  parse_restaurant_variants receives the raw
decoded JSON response and accesses it with Python's dynamic semantics; the
following model makes the attribute lookups, truthiness tests, iteration,
hashing and comparisons explicit, so that the failure behaviour of the
function can be analysed. -/

/-- A decoded JSON value (what response.json() hands to the parser). -/
inductive JVal where
  | null
  | jbool (b : Bool)
  | num (q : Rat)
  | str (s : String)
  | arr (xs : List JVal)
  | obj (fields : List (String × JVal))

/-- The Python exceptions the modelled code can raise. -/
inductive PyErr where
  | attributeError (msg : String)
  | typeError (msg : String)
  | keyError (msg : String)
  | indexError (msg : String)
deriving DecidableEq

/-- Lookup of a key in a decoded JSON object. -/
def jLookup (fields : List (String × JVal)) (key : String) : Option JVal :=
  (fields.find? (fun p => p.1 == key)).map (fun p => p.2)

/-- Python dict.get with a default value. -/
def pyGetD (fields : List (String × JVal)) (key : String) (default : JVal) : JVal :=
  (jLookup fields key).getD default

/-- Python `x.get(key, default)`: only dictionaries have a get method; on
any other value the attribute lookup raises AttributeError. -/
def pyGet (j : JVal) (key : String) (default : JVal) : Except PyErr JVal :=
  match j with
  | .obj fields => .ok (pyGetD fields key default)
  | _ => .error (.attributeError "no attribute get")

/-- Python truthiness of a decoded JSON value. -/
def pyTruthy : JVal → Bool
  | .null => false
  | .jbool b => b
  | .num q => q != 0
  | .str s => s != ""
  | .arr xs => !xs.isEmpty
  | .obj fields => !fields.isEmpty

/-- Python `x[0]`: lists and strings index positionally, a dictionary looks
up the integer key 0 (never present in a decoded JSON object, whose keys
are strings), and everything else raises TypeError. -/
def pyIndexZero : JVal → Except PyErr JVal
  | .arr (x :: _) => .ok x
  | .arr [] => .error (.indexError "list index out of range")
  | .str s =>
    match s.data with
    | c :: _ => .ok (.str (String.mk [c]))
    | [] => .error (.indexError "string index out of range")
  | .obj _ => .error (.keyError "0")
  | _ => .error (.typeError "object is not subscriptable")

/-- Python iteration: lists yield their elements, strings their characters,
dictionaries their keys; None, numbers and booleans are not iterable. -/
def pyIter : JVal → Except PyErr (List JVal)
  | .arr xs => .ok xs
  | .str s => .ok (s.data.map (fun c => .str (String.mk [c])))
  | .obj fields => .ok (fields.map (fun p => JVal.str p.1))
  | _ => .error (.typeError "object is not iterable")

/-- Decoded JSON values Python can hash (containers cannot be). -/
def jHashable : JVal → Bool
  | .arr _ => false
  | .obj _ => false
  | _ => true

/-- Python equality between hashable decoded JSON values (in Python,
True == 1 and False == 0); containers never enter a set in the modelled
code, so no structural cases are needed. -/
def pyScalarEq : JVal → JVal → Bool
  | .null, .null => true
  | .jbool a, .jbool b => a == b
  | .jbool a, .num q => (if a then (1 : Rat) else 0) == q
  | .num q, .jbool b => q == (if b then (1 : Rat) else 0)
  | .num a, .num b => a == b
  | .str a, .str b => a == b
  | _, _ => false

/-- Python set.add: hashing raises TypeError on an unhashable value;
otherwise the (insertion-ordered) set gains the element unless an equal
element is already present. -/
def pySetAdd (l : List JVal) (x : JVal) : Except PyErr (List JVal) :=
  if jHashable x then
    .ok (if l.any (fun y => pyScalarEq y x) then l else l ++ [x])
  else .error (.typeError "unhashable type")

/-- Set insertion for (id, name) tuples: a tuple is hashable iff all of its
components are. -/
def pySetAddPair (l : List (JVal × JVal)) (x : JVal × JVal) :
    Except PyErr (List (JVal × JVal)) :=
  if jHashable x.1 && jHashable x.2 then
    .ok (if l.any (fun y => pyScalarEq y.1 x.1 && pyScalarEq y.2 x.2) then l else l ++ [x])
  else .error (.typeError "unhashable type")

/-- The numeric value of a Python number (bool is a subtype of int). -/
def numVal : JVal → Option Rat
  | .num q => some q
  | .jbool b => some (if b then 1 else 0)
  | _ => none

/-- Python `x > 0`: defined for numbers and booleans, TypeError otherwise. -/
def pyGtZero (j : JVal) : Except PyErr Bool :=
  match numVal j with
  | some q => .ok (decide (0 < q))
  | none => .error (.typeError "not supported between instances")

/-- Stable insertion into a list sorted by the boolean relation le. -/
def insertSortedBy {α : Type} (le : α → α → Bool) (x : α) : List α → List α
  | [] => [x]
  | y :: ys => if le x y then x :: y :: ys else y :: insertSortedBy le x ys

/-- Stable insertion sort by the boolean relation le (Python sorts are
stable). -/
def sortListBy {α : Type} (le : α → α → Bool) (l : List α) : List α :=
  l.foldr (insertSortedBy le) []

/-- The string under a JSON string value (used only under an all-strings
guard). -/
def strKey : JVal → String
  | .str s => s
  | _ => ""

/-- Test for a JSON string value. -/
def isJStr : JVal → Bool
  | .str _ => true
  | _ => false

/-- Python sorted on a list of decoded JSON values: all comparisons succeed
on an all-strings or an all-numbers list; a list of length at most one needs
no comparison; otherwise some cross-type comparison raises TypeError. -/
def pySorted (l : List JVal) : Except PyErr (List JVal) :=
  if l.length ≤ 1 then .ok l
  else if l.all isJStr then
    .ok (sortListBy (fun a b => strLeB (strKey a) (strKey b)) l)
  else if l.all (fun j => (numVal j).isSome) then
    .ok (sortListBy (fun a b => decide ((numVal a).getD 0 ≤ (numVal b).getD 0)) l)
  else .error (.typeError "not supported between instances")

/-- The per-variant dictionary built at app.py lines 227-244, in the
dynamic model: fields copied from the input keep their dynamic values. -/
structure NVJ where
  variant_id : JVal
  variant_name : JVal
  cuisines : List JVal
  cuisine_count : Nat
  menu_items_count : Nat
  categories : List (JVal × JVal)
  categories_count : Nat
  cost : JVal
  min_persons : JVal
  max_persons : JVal
  is_customized : JVal
  venue_id : JVal
  free_services : List JVal
  paid_services : List JVal
  free_services_count : Nat
  paid_services_count : Nat

/-- Dynamic model of extract_services_from_variant (app.py lines 147-174). -/
def extractServicesJ (variant : JVal) : Except PyErr (List JVal × List JVal) := do
  let free_j ← pyGet variant "freeServices" (.arr [])
  let frees ← pyIter free_j
  let free_services ← frees.foldlM (fun acc service => do
    let service_name ← pyGet service "serviceName" (.str "")
    pure (if pyTruthy service_name then acc ++ [service_name] else acc)) []
  let paid_j ← pyGet variant "paidServices" (.arr [])
  let paids ← pyIter paid_j
  let paid_services ← paids.foldlM (fun acc service => do
    let service_name ← pyGet service "serviceName" (.str "")
    pure (if pyTruthy service_name then acc ++ [service_name] else acc)) []
  pure (free_services, paid_services)

/-- Dynamic model of extract_categories_from_menu_item (app.py lines
127-145). -/
def extractCategoriesJ (menu_item : JVal) : Except PyErr (List (JVal × JVal)) := do
  let cat_j ← pyGet menu_item "category" (.arr [])
  let cats ← pyIter cat_j
  cats.foldlM (fun categories category => do
    let parents_j ← pyGet category "parentCategories" (.arr [])
    if pyTruthy parents_j then do
      let parents ← pyIter parents_j
      parents.foldlM (fun cs parent_cat => do
        let pid ← pyGet parent_cat "_id" (.str "")
        let pname ← pyGet parent_cat "name" (.str "")
        pySetAddPair cs (pid, pname)) categories
    else do
      let cid ← pyGet category "_id" (.str "")
      let cname ← pyGet category "name" (.str "")
      pySetAddPair categories (cid, cname)) []

/-- Dynamic model of the per-variant loop body (app.py lines 201-244):
returns the flat record together with the updated global cuisine id set. -/
def processVariantJ (all_ids : List JVal) (variant : JVal) :
    Except PyErr (NVJ × List JVal) := do
  let variant_id ← pyGet variant "_id" (.str "unknown")
  let variant_name ← pyGet variant "name" (.str "unnamed")
  let menu_items_j ← pyGet variant "menuItems" (.arr [])
  let venue_id ← pyGet variant "venueId" (.str "")
  let cost ← pyGet variant "cost" (.num 0)
  let services ← extractServicesJ variant
  let menu_items ← pyIter menu_items_j
  let state ← menu_items.foldlM
    (fun (st : List JVal × List (JVal × JVal) × List JVal) menu_item => do
      let cuisines_j ← pyGet menu_item "cuisine" (.arr [])
      let cuisines ← pyIter cuisines_j
      let sets ← cuisines.foldlM (fun (cu : List JVal × List JVal) cuisine_id => do
        let vc ← pySetAdd cu.1 cuisine_id
        let ai ← pySetAdd cu.2 cuisine_id
        pure (vc, ai)) (st.1, st.2.2)
      let cats ← extractCategoriesJ menu_item
      let vcat ← cats.foldlM (fun a c => pySetAddPair a c) st.2.1
      pure (sets.1, vcat, sets.2)) ([], [], all_ids)
  let variant_cuisine_list ← pySorted state.1
  let min_persons ← pyGet variant "minPersons" (.num 0)
  let max_persons ← pyGet variant "maxPersons" (.num 0)
  let is_customized ← pyGet variant "isCustomized" (.jbool false)
  pure ({ variant_id := variant_id
          variant_name := variant_name
          cuisines := variant_cuisine_list
          cuisine_count := variant_cuisine_list.length
          menu_items_count := menu_items.length
          categories := state.2.1
          categories_count := state.2.1.length
          cost := cost
          min_persons := min_persons
          max_persons := max_persons
          is_customized := is_customized
          venue_id := venue_id
          free_services := services.1
          paid_services := services.2
          free_services_count := services.1.length
          paid_services_count := services.2.length }, state.2.2)

/-- Elementwise Python equality of two tuples of hashable values. -/
def listScalarEq (a b : List JVal) : Bool :=
  a.length == b.length && (List.zip a b).all (fun p => pyScalarEq p.1 p.2)

/-- One insertion into the defaultdict of app.py lines 250-253 in the
dynamic model; tuple keys compare by Python equality. -/
def groupInsertJ (key : List JVal) (v : NVJ) :
    List (List JVal × List NVJ) → List (List JVal × List NVJ)
  | [] => [(key, [v])]
  | (k, vs) :: rest =>
    if listScalarEq k key then (k, vs ++ [v]) :: rest
    else (k, vs) :: groupInsertJ key v rest

/-- Python min over a nonempty list of numeric values: the first element of
least numeric value (min returns an original element, so a True in the list
can be returned). -/
def pyMinNum (l : List JVal) : JVal :=
  match l with
  | [] => .num 0
  | x :: xs => xs.foldl (fun m y => if (numVal y).getD 0 < (numVal m).getD 0 then y else m) x

/-- Python max over a nonempty list of numeric values. -/
def pyMaxNum (l : List JVal) : JVal :=
  match l with
  | [] => .num 0
  | x :: xs => xs.foldl (fun m y => if (numVal m).getD 0 < (numVal y).getD 0 then y else m) x

/-- Python sum over a list of numeric values. -/
def pySumNum (l : List JVal) : Rat :=
  l.foldl (fun s y => s + (numVal y).getD 0) 0

/-- Rendering of a per-variant record as the dictionary the source appends
to restaurant_variants. -/
def nvjToJ (v : NVJ) : JVal :=
  .obj [("variant_id", v.variant_id),
        ("variant_name", v.variant_name),
        ("cuisines", .arr v.cuisines),
        ("cuisine_count", .num (v.cuisine_count : Rat)),
        ("menu_items_count", .num (v.menu_items_count : Rat)),
        ("categories", .arr (v.categories.map (fun c => JVal.arr [c.1, c.2]))),
        ("categories_count", .num (v.categories_count : Rat)),
        ("cost", v.cost),
        ("min_persons", v.min_persons),
        ("max_persons", v.max_persons),
        ("is_customized", v.is_customized),
        ("venue_id", v.venue_id),
        ("free_services", .arr v.free_services),
        ("paid_services", .arr v.paid_services),
        ("free_services_count", .num (v.free_services_count : Rat)),
        ("paid_services_count", .num (v.paid_services_count : Rat))]

/-- Dynamic model of the per-group statistics block (app.py lines 257-333). -/
def formatCombinationJ (combination : List JVal) (variants_in_combo : List NVJ) :
    Except PyErr JVal := do
  let costs ← variants_in_combo.foldlM (fun acc v => do
    let b ← pyGtZero v.cost
    pure (if b then acc ++ [v.cost] else acc)) []
  let price_range : JVal := .obj [
    ("min_price", if costs.isEmpty then .num 0 else pyMinNum costs),
    ("max_price", if costs.isEmpty then .num 0 else pyMaxNum costs),
    ("average_price",
      if costs.isEmpty then .num 0 else .num (pySumNum costs / (costs.length : Rat)))]
  let cuisine_stats : JVal := .obj [
    ("unique_cuisine_ids", .arr combination),
    ("total_cuisine_count", .num (combination.length : Rat))]
  let total_menu_items := (variants_in_combo.map (fun v => v.menu_items_count)).sum
  let all_categories ← variants_in_combo.foldlM (fun acc v =>
    v.categories.foldlM (fun a c => pySetAddPair a c) acc) []
  let menu_stats : JVal := .obj [
    ("total_menu_items", .num (total_menu_items : Rat)),
    ("total_unique_categories", .num (all_categories.length : Rat)),
    ("category_names", .arr ((all_categories.filter (fun c => pyTruthy c.2)).map (fun c => c.2)))]
  let unique_venues ← variants_in_combo.foldlM (fun acc v =>
    if pyTruthy v.venue_id then pySetAdd acc v.venue_id else pure acc) []
  let venue_stats : JVal := .obj [
    ("total_unique_venues", .num (unique_venues.length : Rat)),
    ("venue_ids", .arr unique_venues)]
  let all_free_services := variants_in_combo.foldl (fun acc v => acc ++ v.free_services) []
  let all_paid_services := variants_in_combo.foldl (fun acc v => acc ++ v.paid_services) []
  let unique_free_services ← all_free_services.foldlM (fun acc s => pySetAdd acc s) []
  let unique_paid_services ← all_paid_services.foldlM (fun acc s => pySetAdd acc s) []
  let service_stats : JVal := .obj [
    ("total_unique_free_services", .num (unique_free_services.length : Rat)),
    ("free_service_names", .arr unique_free_services),
    ("total_unique_paid_services", .num (unique_paid_services.length : Rat)),
    ("paid_service_names", .arr unique_paid_services)]
  let matching_variants := variants_in_combo.map (fun v => JVal.obj [
    ("variant_id", v.variant_id),
    ("variant_name", v.variant_name),
    ("cost", v.cost),
    ("venue_id", v.venue_id),
    ("free_services_count", .num (v.free_services_count : Rat)),
    ("paid_services_count", .num (v.paid_services_count : Rat))])
  pure (.obj [
    ("cuisine_combination", .arr combination),
    ("frequency", .num (variants_in_combo.length : Rat)),
    ("combination_size", .num (combination.length : Rat)),
    ("matching_variants", .arr matching_variants),
    ("price_range", price_range),
    ("cuisine_stats", cuisine_stats),
    ("menu_stats", menu_stats),
    ("venue_stats", venue_stats),
    ("service_stats", service_stats)])

/-- The frequency key the final sort reads back from each group dictionary. -/
def jFrequency (j : JVal) : Rat :=
  match j with
  | .obj fields => (numVal (pyGetD fields "frequency" (.num 0))).getD 0
  | _ => 0

/-- The empty analysis result of app.py lines 181-192, as a JSON value. -/
def emptyResultJ : JVal :=
  .obj [("restaurant_data", .arr []),
        ("sorted_cuisine_combinations", .arr []),
        ("all_cuisine_ids", .arr []),
        ("summary", .obj [("total_variants", .num 0),
                          ("total_unique_cuisine_combinations", .num 0),
                          ("total_unique_cuisines", .num 0),
                          ("restaurant_id", .null)])]

/-- Dynamic model of parse_restaurant_variants (app.py lines 176-356) on
the raw decoded response. -/
def parseRestaurantVariantsJ (api_response : JVal) : Except PyErr JVal := do
  let variants_j ← pyGet api_response "variants" (.arr [])
  if !pyTruthy variants_j then
    pure emptyResultJ
  else do
    let v0 ← pyIndexZero variants_j
    let restaurant_id ← pyGet v0 "packageId" (.str "unknown")
    let variants ← pyIter variants_j
    let looped ← variants.foldlM (fun (acc : List NVJ × List JVal) variant => do
      let r ← processVariantJ acc.2 variant
      pure (acc.1 ++ [r.1], r.2)) ([], [])
    let groups := looped.1.foldl (fun acc v => groupInsertJ v.cuisines v acc) []
    let formatted ← groups.foldlM (fun acc p => do
      let g ← formatCombinationJ p.1 p.2
      pure (acc ++ [g])) ([] : List JVal)
    let sorted_combos := sortListBy (fun a b => decide (jFrequency b ≤ jFrequency a)) formatted
    let all_ids_sorted ← pySorted looped.2
    pure (.obj [
      ("restaurant_data", .arr [.obj [
        ("restaurant_id", restaurant_id),
        ("total_variants", .num (variants.length : Rat)),
        ("variants", .arr (looped.1.map nvjToJ))]]),
      ("sorted_cuisine_combinations", .arr sorted_combos),
      ("all_cuisine_ids", .arr all_ids_sorted),
      ("summary", .obj [
        ("total_variants", .num (variants.length : Rat)),
        ("total_unique_cuisine_combinations", .num (sorted_combos.length : Rat)),
        ("total_unique_cuisines", .num (all_ids_sorted.length : Rat)),
        ("restaurant_id", restaurant_id)])])

/-! Concrete inputs used in counterexamples, scenario checks and witnesses. -/

/-- A raw variant with every field absent (decoded from the JSON `{}`). -/
def blankRawVariant : RawVariant :=
  { idField := none, name := none, packageId := none, cost := none
    minPersons := none, maxPersons := none, isCustomized := none
    venueId := none, menuItems := none, freeServices := none, paidServices := none }

/-- Scenario variant A: one menu item with cuisines c2, c1 and cost 100. -/
def scenarioVariantA : RawVariant :=
  { blankRawVariant with
    cost := some 100
    menuItems := some [{ cuisine := some ["c2", "c1"], category := none }] }

/-- Scenario variant B: one menu item with cuisines c1, c2 and cost 200. -/
def scenarioVariantB : RawVariant :=
  { blankRawVariant with
    cost := some 200
    menuItems := some [{ cuisine := some ["c1", "c2"], category := none }] }

/-- Scenario variant for the service extractor: freeServices holds one
entry named WiFi and one entry with an empty name. -/
def wifiVariant : RawVariant :=
  { blankRawVariant with
    freeServices := some [{ serviceName := some "WiFi" }, { serviceName := some "" }] }

/-- The number of input variants whose normalized cuisine list is empty. -/
def emptyCuisineCountOf (variants : List RawVariant) : Nat :=
  (variants.filter (fun v => (normalizeVariant v).cuisines.isEmpty)).length

/-- The sum of the frequency fields over the output combination groups. -/
def totalFrequencyOf (result : AnalysisResult) : Nat :=
  (result.sorted_cuisine_combinations.map (fun g => g.frequency)).sum

/-- First-occurrence deduplication of a list, preserving the order in which
each value is first encountered. -/
def firstSeenDedup {α : Type} [DecidableEq α] (l : List α) : List α :=
  l.foldl setAdd []

/-- Raw cuisine ids of a variant, in source order, duplicates kept: the
concatenation of the cuisine lists of its menu items. -/
def rawCuisineIds (v : RawVariant) : List String :=
  (v.menuItems.getD []).foldl (fun acc menu_item => acc ++ menu_item.cuisine.getD []) []

/-- A top-level response that is not a mapping (a decoded JSON list). -/
def jNotMapping : JVal := .arr []

/-- A mapping whose variants key holds null: not a sequence, but falsy. -/
def jNullVariants : JVal := .obj [("variants", .null)]

/-- A structurally valid top level whose single variant carries a number
under menuItems (a wrong-typed nested field). -/
def jBadMenuItems : JVal :=
  .obj [("variants", .arr [.obj [("menuItems", .num 5)]])]

/-! Helper definitions used by the statements and proofs below. -/

/-- Lookup of a combination key in the grouping map. -/
def lookupGroup (k : List String) :
    List (List String × List NormalizedVariant) → Option (List NormalizedVariant)
  | [] => none
  | (k2, ms) :: rest => if k2 = k then some ms else lookupGroup k rest

/-- Append a member list to an optional group entry (absent and empty
coincide). -/
def optExtend : Option (List NormalizedVariant) → List NormalizedVariant →
    Option (List NormalizedVariant)
  | none, [] => none
  | none, l => some l
  | some ms, l => some (ms ++ l)

/-- A string-or-absent optional JSON value. -/
def isJStrOpt : Option JVal → Bool
  | none => true
  | some v => isJStr v

/-- A service entry on which the extractor cannot raise: a mapping whose
serviceName, if present, is a string. -/
def wfService (j : JVal) : Bool :=
  match j with
  | .obj fields => isJStrOpt (jLookup fields "serviceName")
  | _ => false

/-- A well-typed freeServices/paidServices value: absent, or a list of
well-typed service entries. -/
def wfServices (o : Option JVal) : Bool :=
  match o with
  | none => true
  | some (.arr svcs) => svcs.all wfService
  | some _ => false

/-- A category (or parent category) record whose id and name fields, if
present, are strings. -/
def wfCategoryLeaf (j : JVal) : Bool :=
  match j with
  | .obj fields => isJStrOpt (jLookup fields "_id") && isJStrOpt (jLookup fields "name")
  | _ => false

/-- A well-typed category record: a leaf whose parentCategories value, if
present, is a list of well-typed parent records. -/
def wfCategory (j : JVal) : Bool :=
  match j with
  | .obj fields =>
    isJStrOpt (jLookup fields "_id") && isJStrOpt (jLookup fields "name") &&
    (match jLookup fields "parentCategories" with
     | none => true
     | some (.arr ps) => ps.all wfCategoryLeaf
     | some _ => false)
  | _ => false

/-- A well-typed menu item: cuisine, if present, is a list of strings and
category, if present, a list of well-typed category records. -/
def wfMenuItem (j : JVal) : Bool :=
  match j with
  | .obj fields =>
    (match jLookup fields "cuisine" with
     | none => true
     | some (.arr cs) => cs.all isJStr
     | some _ => false) &&
    (match jLookup fields "category" with
     | none => true
     | some (.arr cats) => cats.all wfCategory
     | some _ => false)
  | _ => false

/-- A well-typed variant record: a mapping whose menuItems, venueId, cost
and service lists, when present, carry values of the expected types; every
other field (including _id, name, packageId, minPersons, maxPersons,
isCustomized) may be absent or hold any value. -/
def wfVariant (j : JVal) : Bool :=
  match j with
  | .obj fields =>
    (match jLookup fields "menuItems" with
     | none => true
     | some (.arr mis) => mis.all wfMenuItem
     | some _ => false) &&
    isJStrOpt (jLookup fields "venueId") &&
    (match jLookup fields "cost" with
     | none => true
     | some v => (numVal v).isSome) &&
    wfServices (jLookup fields "freeServices") &&
    wfServices (jLookup fields "paidServices")
  | _ => false

/-- A structurally well-typed response: a mapping whose variants value, if
present, is a list of well-typed variant records. -/
def wfResponse (j : JVal) : Bool :=
  match j with
  | .obj fields =>
    match jLookup fields "variants" with
    | none => true
    | some (.arr vs) => vs.all wfVariant
    | some _ => false
  | _ => false

/-- The invariant maintained for every flat record the loop produces from a
well-typed variant: the fields the statistics stage operates on carry
values of the expected types. -/
def wfNVJ (nv : NVJ) : Bool :=
  (numVal nv.cost).isSome && isJStr nv.venue_id &&
  nv.categories.all (fun c => isJStr c.1 && isJStr c.2) &&
  nv.free_services.all isJStr && nv.paid_services.all isJStr

/-! Properties of the string order. -/

theorem charsLeB_total : ∀ a b : List Char, charsLeB a b = true ∨ charsLeB b a = true
  | [], _ => Or.inl rfl
  | _ :: _, [] => Or.inr rfl
  | c :: cs, d :: ds => by
    by_cases h1 : c.toNat < d.toNat
    · exact Or.inl (by simp [charsLeB, h1])
    · by_cases h2 : d.toNat < c.toNat
      · exact Or.inr (by simp [charsLeB, h1, h2])
      · rcases charsLeB_total cs ds with h | h
        · exact Or.inl (by simp [charsLeB, h1, h2, h])
        · exact Or.inr (by simp [charsLeB, h1, h2, h])

theorem charsLeB_trans : ∀ a b c : List Char,
    charsLeB a b = true → charsLeB b c = true → charsLeB a c = true
  | [], _, _, _, _ => rfl
  | x :: xs, [], _, hab, _ => by simp [charsLeB] at hab
  | _ :: _, _ :: _, [], _, hbc => by simp [charsLeB] at hbc
  | x :: xs, y :: ys, z :: zs, hab, hbc => by
    simp only [charsLeB] at hab hbc ⊢
    by_cases h1 : x.toNat < y.toNat
    · by_cases h2 : y.toNat < z.toNat
      · simp [Nat.lt_trans h1 h2]
      · by_cases h3 : z.toNat < y.toNat
        · simp [h2, h3] at hbc
        · have hx : x.toNat < z.toNat := by omega
          simp [hx]
    · by_cases h1b : y.toNat < x.toNat
      · simp [h1, h1b] at hab
      · simp only [h1, h1b, if_false, if_neg] at hab
        by_cases h2 : y.toNat < z.toNat
        · have hx : x.toNat < z.toNat := by omega
          simp [hx]
        · by_cases h3 : z.toNat < y.toNat
          · simp [h2, h3] at hbc
          · simp only [h2, h3, if_false, if_neg] at hbc
            have hx1 : ¬ x.toNat < z.toNat := by omega
            have hx2 : ¬ z.toNat < x.toNat := by omega
            simp only [hx1, hx2, if_false, if_neg]
            exact charsLeB_trans xs ys zs hab hbc

theorem char_eq_of_toNat_eq {a b : Char} (h : a.toNat = b.toNat) : a = b := by
  apply Char.eq_of_val_eq
  apply UInt32.eq_of_val_eq
  apply Fin.ext
  exact h

theorem charsLeB_antisymm : ∀ a b : List Char,
    charsLeB a b = true → charsLeB b a = true → a = b
  | [], [], _, _ => rfl
  | [], _ :: _, _, hba => by simp [charsLeB] at hba
  | _ :: _, [], hab, _ => by simp [charsLeB] at hab
  | x :: xs, y :: ys, hab, hba => by
    simp only [charsLeB] at hab hba
    by_cases h1 : x.toNat < y.toNat
    · have h2 : ¬ y.toNat < x.toNat := by omega
      simp [h1, h2] at hba
    · by_cases h2 : y.toNat < x.toNat
      · simp [h1, h2] at hab
      · simp only [h1, h2, if_false, if_neg] at hab hba
        have hxy : x = y := char_eq_of_toNat_eq (by omega)
        rw [hxy, charsLeB_antisymm xs ys hab hba]

instance : IsTotal String strLe := ⟨fun a b => charsLeB_total a.data b.data⟩

instance : IsTrans String strLe :=
  ⟨fun a b c hab hbc => charsLeB_trans a.data b.data c.data hab hbc⟩

instance : IsAntisymm String strLe := by
  refine ⟨fun a b hab hba => ?_⟩
  have h := charsLeB_antisymm a.data b.data hab hba
  cases a
  cases b
  exact congrArg String.mk h

/-! Properties of the set-insertion operation. -/

theorem mem_setAdd {α : Type} [DecidableEq α] (l : List α) (x a : α) :
    a ∈ setAdd l x ↔ a ∈ l ∨ a = x := by
  unfold setAdd
  by_cases h : x ∈ l
  · simp only [if_pos h]
    constructor
    · exact Or.inl
    · rintro (ha | rfl)
      · exact ha
      · exact h
  · simp [if_neg h]

theorem nodup_setAdd {α : Type} [DecidableEq α] (l : List α) (x : α) (h : l.Nodup) :
    (setAdd l x).Nodup := by
  unfold setAdd
  by_cases hx : x ∈ l
  · simpa [if_pos hx]
  · simp only [if_neg hx]
    simpa [List.nodup_append] using ⟨h, fun hmem => hx hmem⟩

theorem mem_foldl_setAdd {α : Type} [DecidableEq α] (l : List α) :
    ∀ (init : List α) (a : α), a ∈ l.foldl setAdd init ↔ a ∈ init ∨ a ∈ l := by
  induction l with
  | nil => simp
  | cons x xs ih =>
    intro init a
    rw [List.foldl_cons, ih, mem_setAdd]
    constructor
    · rintro ((ha | rfl) | ha)
      · exact Or.inl ha
      · exact Or.inr (List.mem_cons_self _ _)
      · exact Or.inr (List.mem_cons_of_mem _ ha)
    · rintro (ha | ha)
      · exact Or.inl (Or.inl ha)
      · rcases List.mem_cons.mp ha with rfl | ha
        · exact Or.inl (Or.inr rfl)
        · exact Or.inr ha

theorem nodup_foldl_setAdd {α : Type} [DecidableEq α] (l : List α) :
    ∀ init : List α, init.Nodup → (l.foldl setAdd init).Nodup := by
  induction l with
  | nil => intro init h; simpa using h
  | cons x xs ih =>
    intro init h
    rw [List.foldl_cons]
    exact ih _ (nodup_setAdd _ _ h)

/-! Properties of the sorted cuisine key. -/

theorem mem_sortedStrings (l : List String) (a : String) :
    a ∈ sortedStrings l ↔ a ∈ l :=
  (List.perm_insertionSort strLe l).mem_iff

theorem nodup_sortedStrings (l : List String) (h : l.Nodup) :
    (sortedStrings l).Nodup :=
  ((List.perm_insertionSort strLe l).nodup_iff).mpr h

theorem sorted_sortedStrings (l : List String) : (sortedStrings l).Sorted strLe :=
  List.sorted_insertionSort strLe l

theorem sorted_strings_ext (l1 l2 : List String) (s1 : l1.Sorted strLe)
    (s2 : l2.Sorted strLe) (n1 : l1.Nodup) (n2 : l2.Nodup)
    (h : ∀ a, a ∈ l1 ↔ a ∈ l2) : l1 = l2 :=
  List.eq_of_perm_of_sorted ((List.perm_ext_iff_of_nodup n1 n2).mpr h) s1 s2

theorem mem_nestedCuisineFold (menu_items : List MenuItem) :
    ∀ (init : List String) (c : String),
      c ∈ menu_items.foldl (fun acc mi => (mi.cuisine.getD []).foldl setAdd acc) init ↔
        c ∈ init ∨ ∃ mi ∈ menu_items, c ∈ mi.cuisine.getD [] := by
  induction menu_items with
  | nil => simp
  | cons mi mis ih =>
    intro init c
    rw [List.foldl_cons, ih, mem_foldl_setAdd]
    constructor
    · rintro ((h | h) | ⟨mi2, hm, hc⟩)
      · exact Or.inl h
      · exact Or.inr ⟨mi, List.mem_cons_self _ _, h⟩
      · exact Or.inr ⟨mi2, List.mem_cons_of_mem _ hm, hc⟩
    · rintro (h | ⟨mi2, hm, hc⟩)
      · exact Or.inl (Or.inl h)
      · rcases List.mem_cons.mp hm with rfl | hm2
        · exact Or.inl (Or.inr hc)
        · exact Or.inr ⟨mi2, hm2, hc⟩

theorem nodup_nestedCuisineFold (menu_items : List MenuItem) :
    ∀ init : List String, init.Nodup →
      (menu_items.foldl (fun acc mi => (mi.cuisine.getD []).foldl setAdd acc) init).Nodup := by
  induction menu_items with
  | nil => intro init h; simpa using h
  | cons mi mis ih =>
    intro init h
    rw [List.foldl_cons]
    exact ih _ (nodup_foldl_setAdd _ _ h)

theorem mem_foldl_append {α β : Type} (l : List α) (g : α → List β) :
    ∀ (init : List β) (b : β),
      b ∈ l.foldl (fun acc y => acc ++ g y) init ↔ b ∈ init ∨ ∃ y ∈ l, b ∈ g y := by
  induction l with
  | nil => simp
  | cons x xs ih =>
    intro init b
    rw [List.foldl_cons, ih]
    simp only [List.mem_append]
    constructor
    · rintro ((h | h) | ⟨y, hy, hb⟩)
      · exact Or.inl h
      · exact Or.inr ⟨x, List.mem_cons_self _ _, h⟩
      · exact Or.inr ⟨y, List.mem_cons_of_mem _ hy, hb⟩
    · rintro (h | ⟨y, hy, hb⟩)
      · exact Or.inl (Or.inl h)
      · rcases List.mem_cons.mp hy with rfl | hy2
        · exact Or.inl (Or.inr hb)
        · exact Or.inr ⟨y, hy2, hb⟩

theorem mem_rawCuisineIds (v : RawVariant) (c : String) :
    c ∈ rawCuisineIds v ↔ ∃ mi ∈ v.menuItems.getD [], c ∈ mi.cuisine.getD [] := by
  unfold rawCuisineIds
  rw [mem_foldl_append]
  simp

theorem normalizeVariant_cuisines (v : RawVariant) :
    (normalizeVariant v).cuisines =
      sortedStrings ((v.menuItems.getD []).foldl
        (fun acc mi => (mi.cuisine.getD []).foldl setAdd acc) []) := rfl

theorem mem_normalized_cuisines (v : RawVariant) (c : String) :
    c ∈ (normalizeVariant v).cuisines ↔ c ∈ rawCuisineIds v := by
  rw [normalizeVariant_cuisines, mem_sortedStrings, mem_nestedCuisineFold,
    mem_rawCuisineIds]
  simp

theorem nodup_normalized_cuisines (v : RawVariant) :
    (normalizeVariant v).cuisines.Nodup := by
  rw [normalizeVariant_cuisines]
  exact nodup_sortedStrings _ (nodup_nestedCuisineFold _ _ List.nodup_nil)

theorem sorted_normalized_cuisines (v : RawVariant) :
    (normalizeVariant v).cuisines.Sorted strLe := by
  rw [normalizeVariant_cuisines]
  exact sorted_sortedStrings _

theorem cuisineKey_eq_iff (A B : RawVariant) :
    (normalizeVariant A).cuisines = (normalizeVariant B).cuisines ↔
      ∀ c, c ∈ rawCuisineIds A ↔ c ∈ rawCuisineIds B := by
  constructor
  · intro h c
    rw [← mem_normalized_cuisines, ← mem_normalized_cuisines, h]
  · intro h
    exact sorted_strings_ext _ _ (sorted_normalized_cuisines A)
      (sorted_normalized_cuisines B) (nodup_normalized_cuisines A)
      (nodup_normalized_cuisines B)
      (fun a => by rw [mem_normalized_cuisines, mem_normalized_cuisines]; exact h a)

/-! Properties of the grouping stage. -/

theorem lookup_groupInsert (k key : List String) (v : NormalizedVariant)
    (A : List (List String × List NormalizedVariant)) :
    lookupGroup k (groupInsert key v A) =
      if key = k then some ((lookupGroup k A).getD [] ++ [v]) else lookupGroup k A := by
  induction A with
  | nil =>
    by_cases h : key = k <;> simp [groupInsert, lookupGroup, h, Ne.symm]
  | cons p rest ih =>
    obtain ⟨k2, ms⟩ := p
    simp only [groupInsert]
    by_cases h1 : k2 = key
    · subst h1
      simp only [if_pos rfl, lookupGroup]
      by_cases h2 : k2 = k
      · subst h2
        simp [lookupGroup]
      · have h3 : ¬ k2 = k := h2
        simp [lookupGroup, h2, h3]
    · simp only [if_neg h1, lookupGroup]
      by_cases h2 : k2 = k
      · subst h2
        simp only [if_pos rfl]
        by_cases h3 : key = k2
        · exact absurd h3.symm h1
        · simp [h3]
      · simp only [if_neg h2, ih]

theorem lookup_groups_foldl (nvs : List NormalizedVariant) :
    ∀ (acc : List (List String × List NormalizedVariant)) (k : List String),
      lookupGroup k (nvs.foldl (fun a v => groupInsert v.cuisines v a) acc) =
        optExtend (lookupGroup k acc)
          (nvs.filter (fun v => decide (v.cuisines = k))) := by
  induction nvs with
  | nil =>
    intro acc k
    cases h : lookupGroup k acc <;> simp [optExtend, h]
  | cons v vs ih =>
    intro acc k
    rw [List.foldl_cons, ih, lookup_groupInsert]
    by_cases h : v.cuisines = k
    · rw [if_pos h, List.filter_cons_of_pos (by simpa using h)]
      cases hacc : lookupGroup k acc <;> simp [optExtend]
    · rw [if_neg h, List.filter_cons_of_neg (by simpa using h)]

theorem lookupGroup_mem (k : List String) (ms : List NormalizedVariant) :
    ∀ A, lookupGroup k A = some ms → (k, ms) ∈ A := by
  intro A
  induction A with
  | nil => intro h; simp [lookupGroup] at h
  | cons p rest ih =>
    obtain ⟨k2, ms2⟩ := p
    intro h
    simp only [lookupGroup] at h
    by_cases h2 : k2 = k
    · subst h2
      rw [if_pos rfl] at h
      cases h
      exact List.mem_cons_self _ _
    · rw [if_neg h2] at h
      exact List.mem_cons_of_mem _ (ih h)

theorem combination_groups_lookup (nvs : List NormalizedVariant) (k : List String)
    (h : nvs.filter (fun v => decide (v.cuisines = k)) ≠ []) :
    lookupGroup k (combination_groups nvs) =
      some (nvs.filter (fun v => decide (v.cuisines = k))) := by
  unfold combination_groups
  rw [lookup_groups_foldl]
  simp only [lookupGroup]
  rcases heq : nvs.filter (fun v => decide (v.cuisines = k)) with _ | ⟨x, xs⟩
  · exact absurd heq h
  · simp [optExtend]

theorem groupInsert_member_key (key : List String) (v : NormalizedVariant)
    (A : List (List String × List NormalizedVariant))
    (hA : ∀ p ∈ A, ∀ m ∈ p.2, m.cuisines = p.1) (hkey : v.cuisines = key) :
    ∀ p ∈ groupInsert key v A, ∀ m ∈ p.2, m.cuisines = p.1 := by
  induction A with
  | nil =>
    intro p hp m hm
    simp only [groupInsert, List.mem_singleton] at hp
    subst hp
    simp only [List.mem_singleton] at hm
    subst hm
    exact hkey
  | cons q rest ih =>
    obtain ⟨k2, ms2⟩ := q
    intro p hp m hm
    simp only [groupInsert] at hp
    by_cases h1 : k2 = key
    · rw [if_pos h1] at hp
      rcases List.mem_cons.mp hp with rfl | hp2
      · rcases List.mem_append.mp hm with hm2 | hm2
        · exact hA (k2, ms2) (List.mem_cons_self _ _) m hm2
        · simp only [List.mem_singleton] at hm2
          subst hm2
          rw [hkey, h1]
      · exact hA _ (List.mem_cons_of_mem _ hp2) m hm
    · rw [if_neg h1] at hp
      rcases List.mem_cons.mp hp with rfl | hp2
      · exact hA _ (List.mem_cons_self _ _) m hm
      · exact ih (fun q hq => hA q (List.mem_cons_of_mem _ hq)) p hp2 m hm

theorem combination_groups_member_key (nvs : List NormalizedVariant) :
    ∀ p ∈ combination_groups nvs, ∀ m ∈ p.2, m.cuisines = p.1 := by
  unfold combination_groups
  suffices h : ∀ (acc : List (List String × List NormalizedVariant)),
      (∀ p ∈ acc, ∀ m ∈ p.2, m.cuisines = p.1) →
      ∀ p ∈ nvs.foldl (fun a v => groupInsert v.cuisines v a) acc, ∀ m ∈ p.2,
        m.cuisines = p.1 by
    exact h [] (by intro p hp; simp at hp)
  induction nvs with
  | nil => intro acc hacc; simpa using hacc
  | cons v vs ih =>
    intro acc hacc
    rw [List.foldl_cons]
    exact ih _ (groupInsert_member_key _ _ _ hacc rfl)

theorem groupInsert_member_src (key : List String) (v : NormalizedVariant)
    (A : List (List String × List NormalizedVariant)) :
    ∀ p ∈ groupInsert key v A, ∀ m ∈ p.2, m = v ∨ ∃ q ∈ A, m ∈ q.2 := by
  induction A with
  | nil =>
    intro p hp m hm
    simp only [groupInsert, List.mem_singleton] at hp
    subst hp
    simp only [List.mem_singleton] at hm
    exact Or.inl hm
  | cons q rest ih =>
    obtain ⟨k2, ms2⟩ := q
    intro p hp m hm
    simp only [groupInsert] at hp
    by_cases h1 : k2 = key
    · rw [if_pos h1] at hp
      rcases List.mem_cons.mp hp with rfl | hp2
      · rcases List.mem_append.mp hm with hm2 | hm2
        · exact Or.inr ⟨(k2, ms2), List.mem_cons_self _ _, hm2⟩
        · simp only [List.mem_singleton] at hm2
          exact Or.inl hm2
      · exact Or.inr ⟨p, List.mem_cons_of_mem _ hp2, hm⟩
    · rw [if_neg h1] at hp
      rcases List.mem_cons.mp hp with rfl | hp2
      · exact Or.inr ⟨_, List.mem_cons_self _ _, hm⟩
      · rcases ih p hp2 m hm with h | ⟨q2, hq2, hmq⟩
        · exact Or.inl h
        · exact Or.inr ⟨q2, List.mem_cons_of_mem _ hq2, hmq⟩

theorem groupInsert_sumLens (key : List String) (v : NormalizedVariant)
    (A : List (List String × List NormalizedVariant)) :
    ((groupInsert key v A).map (fun p => p.2.length)).sum =
      ((A.map (fun p => p.2.length)).sum) + 1 := by
  induction A with
  | nil => simp [groupInsert]
  | cons q rest ih =>
    obtain ⟨k2, ms2⟩ := q
    simp only [groupInsert]
    by_cases h1 : k2 = key
    · rw [if_pos h1]
      simp [List.map_cons, List.sum_cons]
      omega
    · rw [if_neg h1]
      simp only [List.map_cons, List.sum_cons, ih]
      omega

theorem combination_groups_sumLens (nvs : List NormalizedVariant) :
    (((combination_groups nvs).map (fun p => p.2.length)).sum) = nvs.length := by
  unfold combination_groups
  suffices h : ∀ acc : List (List String × List NormalizedVariant),
      ((nvs.foldl (fun a v => groupInsert v.cuisines v a) acc).map
        (fun p => p.2.length)).sum = ((acc.map (fun p => p.2.length)).sum) + nvs.length by
    simpa using h []
  induction nvs with
  | nil => intro acc; simp
  | cons v vs ih =>
    intro acc
    rw [List.foldl_cons, ih, groupInsert_sumLens]
    simp only [List.length_cons]
    omega

theorem groupInsert_keys (key : List String) (v : NormalizedVariant)
    (A : List (List String × List NormalizedVariant)) :
    (groupInsert key v A).map Prod.fst = setAdd (A.map Prod.fst) key := by
  induction A with
  | nil => simp [groupInsert, setAdd]
  | cons q rest ih =>
    obtain ⟨k2, ms2⟩ := q
    simp only [groupInsert]
    by_cases h1 : k2 = key
    · subst h1
      rw [if_pos rfl]
      have hmem : k2 ∈ (((k2, ms2) :: rest).map Prod.fst) := by simp
      simp [setAdd, hmem]
    · rw [if_neg h1]
      simp only [List.map_cons, ih]
      unfold setAdd
      by_cases h2 : key ∈ rest.map Prod.fst
      · have h3 : key ∈ k2 :: rest.map Prod.fst := List.mem_cons_of_mem _ h2
        rw [if_pos h2, if_pos h3]
      · have h3 : ¬ key ∈ k2 :: rest.map Prod.fst := by
          rw [List.mem_cons]
          rintro (h | h)
          · exact h1 h.symm
          · exact h2 h
        rw [if_neg h2, if_neg h3, List.cons_append]

theorem combination_groups_keys (nvs : List NormalizedVariant) :
    (combination_groups nvs).map Prod.fst =
      firstSeenDedup (nvs.map (fun v => v.cuisines)) := by
  unfold combination_groups firstSeenDedup
  suffices h : ∀ acc : List (List String × List NormalizedVariant),
      ((nvs.foldl (fun a v => groupInsert v.cuisines v a) acc).map Prod.fst) =
        (nvs.map (fun v => v.cuisines)).foldl setAdd (acc.map Prod.fst) by
    simpa using h []
  induction nvs with
  | nil => intro acc; simp
  | cons v vs ih =>
    intro acc
    rw [List.foldl_cons, ih, List.map_cons, List.foldl_cons, groupInsert_keys]

/-! Properties of the final sort by descending frequency. -/

theorem filter_orderedInsert_freq (f : Nat) (x : CombinationGroup)
    (l : List CombinationGroup) :
    (List.orderedInsert freqGE x l).filter (fun g => decide (g.frequency = f)) =
      if x.frequency = f then x :: l.filter (fun g => decide (g.frequency = f))
      else l.filter (fun g => decide (g.frequency = f)) := by
  induction l with
  | nil => by_cases h : x.frequency = f <;> simp [List.orderedInsert, h]
  | cons y ys ih =>
    simp only [List.orderedInsert]
    by_cases hin : freqGE x y
    · rw [if_pos hin, List.filter_cons, List.filter_cons]
      by_cases h : x.frequency = f <;> simp [h]
    · rw [if_neg hin, List.filter_cons, ih, List.filter_cons]
      by_cases h : x.frequency = f
      · have hy : ¬ y.frequency = f := by
          unfold freqGE at hin
          omega
        simp [h, hy]
      · simp [h]

theorem filter_sortCombinations_freq (f : Nat) (l : List CombinationGroup) :
    (sortCombinations l).filter (fun g => decide (g.frequency = f)) =
      l.filter (fun g => decide (g.frequency = f)) := by
  unfold sortCombinations
  induction l with
  | nil => rfl
  | cons x xs ih =>
    simp only [List.insertionSort]
    rw [filter_orderedInsert_freq, ih, List.filter_cons]
    by_cases h : x.frequency = f <;> simp [h]

theorem sorted_sortCombinations (l : List CombinationGroup) :
    (sortCombinations l).Sorted freqGE :=
  List.sorted_insertionSort freqGE l

theorem mem_sortCombinations (l : List CombinationGroup) (g : CombinationGroup) :
    g ∈ sortCombinations l ↔ g ∈ l :=
  (List.perm_insertionSort freqGE l).mem_iff

theorem sum_freq_sortCombinations (l : List CombinationGroup) :
    ((sortCombinations l).map (fun g => g.frequency)).sum =
      (l.map (fun g => g.frequency)).sum :=
  ((List.perm_insertionSort freqGE l).map (fun g => g.frequency)).sum_eq

/-! Shape of the parse result on a nonempty variant list. -/

theorem parse_sorted_eq (v0 : RawVariant) (rest : List RawVariant) :
    (parse_restaurant_variants (v0 :: rest)).sorted_cuisine_combinations =
      sortCombinations (formattedCombinationsOf (v0 :: rest)) := rfl

theorem parse_total_variants (v0 : RawVariant) (rest : List RawVariant) :
    (parse_restaurant_variants (v0 :: rest)).summary.total_variants =
      (v0 :: rest).length := rfl

theorem parse_restaurant_data (v0 : RawVariant) (rest : List RawVariant) :
    (parse_restaurant_variants (v0 :: rest)).restaurant_data =
      [{ restaurant_id := v0.packageId.getD "unknown"
         total_variants := (v0 :: rest).length
         variants := restaurantVariantsOf (v0 :: rest) }] := rfl

theorem formatCombination_frequency (k : List String) (ms : List NormalizedVariant) :
    (formatCombination k ms).frequency = ms.length := rfl

theorem formatCombination_key (k : List String) (ms : List NormalizedVariant) :
    (formatCombination k ms).cuisine_combination = k := rfl

theorem formatCombination_matching (k : List String) (ms : List NormalizedVariant) :
    (formatCombination k ms).matching_variants = ms.map projectVariant := rfl

theorem sum_freq_formatted (variants : List RawVariant) :
    ((formattedCombinationsOf variants).map (fun g => g.frequency)).sum =
      (restaurantVariantsOf variants).length := by
  unfold formattedCombinationsOf
  rw [List.map_map]
  have h : ((combination_groups (restaurantVariantsOf variants)).map
      ((fun g => g.frequency) ∘ fun p => formatCombination p.1 p.2)) =
      ((combination_groups (restaurantVariantsOf variants)).map (fun p => p.2.length)) :=
    List.map_congr_left (fun p _ => rfl)
  rw [h, combination_groups_sumLens]

/-! Every input variant reaches the group keyed by its cuisine list. -/

theorem formatted_exists_of_mem (variants : List RawVariant) (v : RawVariant)
    (hv : v ∈ variants) :
    ∃ g ∈ formattedCombinationsOf variants,
      g.cuisine_combination = (normalizeVariant v).cuisines ∧
      projectVariant (normalizeVariant v) ∈ g.matching_variants := by
  have hnv : normalizeVariant v ∈ restaurantVariantsOf variants :=
    List.mem_map_of_mem _ hv
  have hfil : normalizeVariant v ∈ (restaurantVariantsOf variants).filter
      (fun w => decide (w.cuisines = (normalizeVariant v).cuisines)) :=
    List.mem_filter.mpr ⟨hnv, by simp⟩
  have hne := List.ne_nil_of_mem hfil
  have hlook := combination_groups_lookup (restaurantVariantsOf variants)
    (normalizeVariant v).cuisines hne
  have hpair := lookupGroup_mem _ _ _ hlook
  refine ⟨formatCombination (normalizeVariant v).cuisines
    ((restaurantVariantsOf variants).filter
      (fun w => decide (w.cuisines = (normalizeVariant v).cuisines))), ?_, rfl, ?_⟩
  · exact List.mem_map_of_mem (fun p => formatCombination p.1 p.2) hpair
  · rw [formatCombination_matching]
    exact List.mem_map_of_mem _ hfil

theorem parse_exists_group (v v0 : RawVariant) (rest : List RawVariant)
    (hv : v ∈ v0 :: rest) :
    ∃ g ∈ (parse_restaurant_variants (v0 :: rest)).sorted_cuisine_combinations,
      g.cuisine_combination = (normalizeVariant v).cuisines ∧
      projectVariant (normalizeVariant v) ∈ g.matching_variants := by
  obtain ⟨g, hg, hk, hm⟩ := formatted_exists_of_mem _ v hv
  refine ⟨g, ?_, hk, hm⟩
  rw [parse_sorted_eq]
  exact (mem_sortCombinations _ _).mpr hg

theorem parse_group_src (v0 : RawVariant) (rest : List RawVariant)
    (g : CombinationGroup)
    (hg : g ∈ (parse_restaurant_variants (v0 :: rest)).sorted_cuisine_combinations) :
    ∃ k ms, (k, ms) ∈ combination_groups (restaurantVariantsOf (v0 :: rest)) ∧
      g = formatCombination k ms := by
  rw [parse_sorted_eq, mem_sortCombinations] at hg
  unfold formattedCombinationsOf at hg
  obtain ⟨p, hp, heq⟩ := List.mem_map.mp hg
  exact ⟨p.1, p.2, hp, heq.symm⟩

/-! Claim C1. -/

/-- Claim C1, counterexample: on the input consisting of one variant with
no menu items (hence an empty normalized cuisine list), the output contains
exactly one combination group, its key is the empty list, and the variant
is its member — the claim asserts no such group may appear. -/
theorem c1_counterexample :
    (parse_restaurant_variants [blankRawVariant]).sorted_cuisine_combinations.map
        (fun g => g.cuisine_combination) = [[]] ∧
    (parse_restaurant_variants [blankRawVariant]).sorted_cuisine_combinations.map
        (fun g => g.matching_variants.map (fun m => m.variant_id)) = [["unknown"]] :=
  ⟨by decide, by decide⟩

/-- Claim C1, amended: a variant whose normalized cuisine list is empty
appears in restaurant_data and is not omitted from grouping: it is a member
of a group of sorted_cuisine_combinations whose cuisine_combination key is
the empty list. -/
theorem c1_empty_cuisine_grouped :
    ∀ (variants : List RawVariant) (v : RawVariant), v ∈ variants →
      (normalizeVariant v).cuisines = [] →
      (∃ rd ∈ (parse_restaurant_variants variants).restaurant_data,
        normalizeVariant v ∈ rd.variants) ∧
      (∃ g ∈ (parse_restaurant_variants variants).sorted_cuisine_combinations,
        g.cuisine_combination = [] ∧
        projectVariant (normalizeVariant v) ∈ g.matching_variants) := by
  intro variants v hv hcu
  cases variants with
  | nil => cases hv
  | cons v0 rest =>
    constructor
    · refine ⟨{ restaurant_id := v0.packageId.getD "unknown"
                total_variants := (v0 :: rest).length
                variants := restaurantVariantsOf (v0 :: rest) }, ?_, ?_⟩
      · rw [parse_restaurant_data]
        exact List.mem_singleton.mpr rfl
      · exact List.mem_map_of_mem _ hv
    · obtain ⟨g, hg, hk, hm⟩ := parse_exists_group v v0 rest hv
      exact ⟨g, hg, by rw [hk, hcu], hm⟩

/-- Witness for the amended claim C1 at the concrete one-variant input. -/
theorem c1_witness :
    (∃ rd ∈ (parse_restaurant_variants [blankRawVariant]).restaurant_data,
      normalizeVariant blankRawVariant ∈ rd.variants) ∧
    (∃ g ∈ (parse_restaurant_variants [blankRawVariant]).sorted_cuisine_combinations,
      g.cuisine_combination = [] ∧
      projectVariant (normalizeVariant blankRawVariant) ∈ g.matching_variants) :=
  c1_empty_cuisine_grouped [blankRawVariant] blankRawVariant
    (List.mem_singleton.mpr rfl) (by decide)

/-! Claim C2. -/

/-- Claim C2, counterexample: on the one-variant input with an empty
cuisine list the sum of group frequencies is already the total variant
count, so adding the count of empty-cuisine variants (one) breaks the
claimed identity. -/
theorem c2_counterexample :
    ¬ (totalFrequencyOf (parse_restaurant_variants [blankRawVariant]) +
        emptyCuisineCountOf [blankRawVariant] =
        (parse_restaurant_variants [blankRawVariant]).summary.total_variants) := by
  decide

/-- Claim C2, amended: variants with an empty cuisine list are grouped like
any others (under the empty key), so the frequencies of the output groups
alone sum to summary.total_variants, with no correction term. -/
theorem c2_frequency_conservation :
    ∀ variants : List RawVariant,
      totalFrequencyOf (parse_restaurant_variants variants) =
        (parse_restaurant_variants variants).summary.total_variants := by
  intro variants
  cases variants with
  | nil => rfl
  | cons v0 rest =>
    unfold totalFrequencyOf
    rw [parse_sorted_eq, sum_freq_sortCombinations, sum_freq_formatted,
      parse_total_variants]
    simp [restaurantVariantsOf]

/-! Claim C4. -/

unseal Rat.add Rat.mul Rat.inv in
/-- Claim C4: two variants land in the same combination group exactly when
their raw cuisine-id collections are equal as sets (order and duplicates
irrelevant); and the concrete two-variant scenario produces a single group
with key c1, c2, frequency 2 and price range 100/200/150. -/
theorem c4_combination_key_invariance :
    (∀ (A B : RawVariant) (variants : List RawVariant), A ∈ variants → B ∈ variants →
      ((∃ k ms, (k, ms) ∈ combination_groups (restaurantVariantsOf variants) ∧
          normalizeVariant A ∈ ms ∧ normalizeVariant B ∈ ms) ↔
        (∀ c, c ∈ rawCuisineIds A ↔ c ∈ rawCuisineIds B))) ∧
    ((parse_restaurant_variants [scenarioVariantA, scenarioVariantB]).sorted_cuisine_combinations.map
        (fun g => (g.cuisine_combination, g.frequency)) = [(["c1", "c2"], 2)]) ∧
    ((parse_restaurant_variants [scenarioVariantA, scenarioVariantB]).sorted_cuisine_combinations.map
        (fun g => g.price_range) =
      [{ min_price := 100, max_price := 200, average_price := 150 }]) := by
  refine ⟨?_, by decide, by decide⟩
  intro A B variants hA hB
  constructor
  · rintro ⟨k, ms, hpair, hmA, hmB⟩
    have h1 := combination_groups_member_key _ _ hpair _ hmA
    have h2 := combination_groups_member_key _ _ hpair _ hmB
    exact (cuisineKey_eq_iff A B).mp (h1.trans h2.symm)
  · intro hset
    have hkey : (normalizeVariant A).cuisines = (normalizeVariant B).cuisines :=
      (cuisineKey_eq_iff A B).mpr hset
    have hfA : normalizeVariant A ∈ (restaurantVariantsOf variants).filter
        (fun w => decide (w.cuisines = (normalizeVariant A).cuisines)) :=
      List.mem_filter.mpr ⟨List.mem_map_of_mem _ hA, by simp⟩
    have hfB : normalizeVariant B ∈ (restaurantVariantsOf variants).filter
        (fun w => decide (w.cuisines = (normalizeVariant A).cuisines)) :=
      List.mem_filter.mpr ⟨List.mem_map_of_mem _ hB, by simp [hkey]⟩
    have hne := List.ne_nil_of_mem hfA
    have hlook := combination_groups_lookup (restaurantVariantsOf variants)
      (normalizeVariant A).cuisines hne
    exact ⟨(normalizeVariant A).cuisines, _, lookupGroup_mem _ _ _ hlook, hfA, hfB⟩

/-- Witness for claim C4 at the two scenario variants. -/
theorem c4_witness :
    (∃ k ms, (k, ms) ∈ combination_groups
        (restaurantVariantsOf [scenarioVariantA, scenarioVariantB]) ∧
        normalizeVariant scenarioVariantA ∈ ms ∧
        normalizeVariant scenarioVariantB ∈ ms) ↔
      (∀ c, c ∈ rawCuisineIds scenarioVariantA ↔ c ∈ rawCuisineIds scenarioVariantB) :=
  c4_combination_key_invariance.1 scenarioVariantA scenarioVariantB
    [scenarioVariantA, scenarioVariantB] (List.mem_cons_self _ _)
    (List.mem_cons_of_mem _ (List.mem_singleton.mpr rfl))

/-! Claim C5. -/

/-- Claim C5: the output groups are non-increasing in frequency; filtering
the output and the pre-sort first-seen-ordered stage by any fixed frequency
yields the same list (the sort is stable with no secondary key); and the
pre-sort stage lists the combination keys in the order they are first
encountered while scanning the input variants. -/
theorem c5_sort_stability :
    ∀ variants : List RawVariant,
      ((parse_restaurant_variants variants).sorted_cuisine_combinations.Sorted freqGE) ∧
      (∀ f : Nat,
        (parse_restaurant_variants variants).sorted_cuisine_combinations.filter
            (fun g => decide (g.frequency = f)) =
          (formattedCombinationsOf variants).filter (fun g => decide (g.frequency = f))) ∧
      ((formattedCombinationsOf variants).map (fun g => g.cuisine_combination) =
        firstSeenDedup ((variants.map normalizeVariant).map (fun v => v.cuisines))) := by
  intro variants
  have hkeys : (formattedCombinationsOf variants).map (fun g => g.cuisine_combination) =
      firstSeenDedup ((variants.map normalizeVariant).map (fun v => v.cuisines)) := by
    unfold formattedCombinationsOf
    rw [List.map_map]
    have h : ((combination_groups (restaurantVariantsOf variants)).map
        ((fun g => g.cuisine_combination) ∘ fun p => formatCombination p.1 p.2)) =
        ((combination_groups (restaurantVariantsOf variants)).map Prod.fst) :=
      List.map_congr_left (fun p _ => rfl)
    rw [h, combination_groups_keys]
    rfl
  cases variants with
  | nil => exact ⟨List.sorted_nil, fun f => rfl, hkeys⟩
  | cons v0 rest =>
    refine ⟨?_, ?_, hkeys⟩
    · rw [parse_sorted_eq]
      exact sorted_sortCombinations _
    · intro f
      rw [parse_sorted_eq, filter_sortCombinations_freq]

/-! Claim C6. -/

/-- Claim C6: for every output group the price range is computed only over
member costs strictly greater than zero, all three fields are 0 when no
member has a positive cost, every member (also with cost at most 0) appears
in matching_variants with its original cost, and the member count equals
the frequency. -/
theorem c6_price_range_policy :
    ∀ variants : List RawVariant,
      (∀ g ∈ (parse_restaurant_variants variants).sorted_cuisine_combinations,
        (((g.matching_variants.map (fun m => m.cost)).filter
              (fun c => decide (0 < c))) = [] →
            g.price_range = { min_price := 0, max_price := 0, average_price := 0 }) ∧
        (((g.matching_variants.map (fun m => m.cost)).filter
              (fun c => decide (0 < c))) ≠ [] →
            g.price_range.min_price =
              listMin ((g.matching_variants.map (fun m => m.cost)).filter
                (fun c => decide (0 < c))) ∧
            g.price_range.max_price =
              listMax ((g.matching_variants.map (fun m => m.cost)).filter
                (fun c => decide (0 < c))) ∧
            g.price_range.average_price =
              listSum ((g.matching_variants.map (fun m => m.cost)).filter
                  (fun c => decide (0 < c))) /
                (((g.matching_variants.map (fun m => m.cost)).filter
                  (fun c => decide (0 < c))).length : Rat)) ∧
        g.matching_variants.length = g.frequency) ∧
      (∀ v ∈ variants,
        ∃ g ∈ (parse_restaurant_variants variants).sorted_cuisine_combinations,
          projectVariant (normalizeVariant v) ∈ g.matching_variants ∧
          (projectVariant (normalizeVariant v)).cost = (normalizeVariant v).cost) := by
  intro variants
  constructor
  · intro g hg
    cases variants with
    | nil => simp [parse_restaurant_variants, emptyAnalysisResult] at hg
    | cons v0 rest =>
      obtain ⟨k, ms, hpair, rfl⟩ := parse_group_src v0 rest g hg
      have hc : (formatCombination k ms).matching_variants.map (fun m => m.cost) =
          ms.map (fun v => v.cost) := by
        rw [formatCombination_matching, List.map_map]
        exact List.map_congr_left (fun v _ => rfl)
      refine ⟨?_, ?_, ?_⟩
      · intro hemp
        rw [hc] at hemp
        show ({ min_price := _, max_price := _, average_price := _ } : PriceRange) = _
        simp only [hemp]
        simp
      · intro hne
        rw [hc] at hne
        rw [hc]
        refine ⟨?_, ?_, ?_⟩ <;>
          · show (if _ ≠ ([] : List Rat) then _ else _) = _
            rw [if_pos hne]
      · rw [formatCombination_matching, formatCombination_frequency]
        simp
  · intro v hv
    cases variants with
    | nil => cases hv
    | cons v0 rest =>
      obtain ⟨g, hg, _, hm⟩ := parse_exists_group v v0 rest hv
      exact ⟨g, hg, hm, rfl⟩

/-- Witness for claim C6: the blank variant (cost 0) still appears in the
matching_variants of its group with its original cost. -/
theorem c6_witness :
    ∃ g ∈ (parse_restaurant_variants [blankRawVariant]).sorted_cuisine_combinations,
      projectVariant (normalizeVariant blankRawVariant) ∈ g.matching_variants ∧
      (projectVariant (normalizeVariant blankRawVariant)).cost =
        (normalizeVariant blankRawVariant).cost :=
  (c6_price_range_policy [blankRawVariant]).2 blankRawVariant
    (List.mem_singleton.mpr rfl)

/-! Claim C7. -/

theorem mem_foldl_setAdd_map {α β : Type} [DecidableEq β] (f : α → β) (l : List α) :
    ∀ (init : List β) (b : β),
      b ∈ l.foldl (fun acc y => setAdd acc (f y)) init ↔
        b ∈ init ∨ ∃ y ∈ l, b = f y := by
  induction l with
  | nil => simp
  | cons x xs ih =>
    intro init b
    rw [List.foldl_cons, ih, mem_setAdd]
    constructor
    · rintro ((h | rfl) | ⟨y, hy, rfl⟩)
      · exact Or.inl h
      · exact Or.inr ⟨x, List.mem_cons_self _ _, rfl⟩
      · exact Or.inr ⟨y, List.mem_cons_of_mem _ hy, rfl⟩
    · rintro (h | ⟨y, hy, rfl⟩)
      · exact Or.inl (Or.inl h)
      · rcases List.mem_cons.mp hy with rfl | hy2
        · exact Or.inl (Or.inr rfl)
        · exact Or.inr ⟨y, hy2, rfl⟩

theorem nodup_foldl_setAdd_map {α β : Type} [DecidableEq β] (f : α → β) (l : List α) :
    ∀ init : List β, init.Nodup →
      (l.foldl (fun acc y => setAdd acc (f y)) init).Nodup := by
  induction l with
  | nil => intro init h; simpa using h
  | cons x xs ih =>
    intro init h
    rw [List.foldl_cons]
    exact ih _ (nodup_setAdd _ _ h)

theorem mem_categoriesFold (cats : List Category) :
    ∀ (init : List (String × String)) (p : String × String),
      p ∈ cats.foldl (fun categories category =>
          let parent_categories := category.parentCategories.getD []
          if parent_categories.isEmpty then
            setAdd categories (category.idField.getD "", category.nameField.getD "")
          else
            parent_categories.foldl (fun cs parent_cat =>
              setAdd cs (parent_cat.idField.getD "", parent_cat.nameField.getD ""))
              categories) init ↔
        p ∈ init ∨ ∃ c ∈ cats,
          ((c.parentCategories.getD [] ≠ [] ∧
              ∃ pc ∈ c.parentCategories.getD [],
                p = (pc.idField.getD "", pc.nameField.getD "")) ∨
           (c.parentCategories.getD [] = [] ∧
              p = (c.idField.getD "", c.nameField.getD ""))) := by
  induction cats with
  | nil => simp
  | cons c cs ih =>
    intro init p
    rw [List.foldl_cons, ih]
    rcases hpl : c.parentCategories.getD [] with _ | ⟨pc0, pcs⟩
    · simp only [hpl, List.isEmpty_nil, if_pos, mem_setAdd]
      constructor
      · rintro ((h | rfl) | ⟨c2, hc2, hcase⟩)
        · exact Or.inl h
        · exact Or.inr ⟨c, List.mem_cons_self _ _, Or.inr ⟨hpl, rfl⟩⟩
        · exact Or.inr ⟨c2, List.mem_cons_of_mem _ hc2, hcase⟩
      · rintro (h | ⟨c2, hc2, hcase⟩)
        · exact Or.inl (Or.inl h)
        · rcases List.mem_cons.mp hc2 with rfl | hc3
          · rcases hcase with ⟨hne, _⟩ | ⟨_, rfl⟩
            · exact absurd hpl hne
            · exact Or.inl (Or.inr rfl)
          · exact Or.inr ⟨c2, hc3, hcase⟩
    · have hne : c.parentCategories.getD [] ≠ [] := by rw [hpl]; exact List.cons_ne_nil _ _
      simp only [hpl, List.isEmpty_cons, if_neg, Bool.false_eq_true, not_false_iff]
      rw [show (pc0 :: pcs).foldl (fun cs parent_cat =>
          setAdd cs (parent_cat.idField.getD "", parent_cat.nameField.getD "")) init =
          (pc0 :: pcs).foldl (fun acc y =>
            setAdd acc ((fun pc => (pc.idField.getD "", pc.nameField.getD "")) y)) init
        from rfl, mem_foldl_setAdd_map]
      constructor
      · rintro ((h | ⟨pc, hpc, rfl⟩) | ⟨c2, hc2, hcase⟩)
        · exact Or.inl h
        · exact Or.inr ⟨c, List.mem_cons_self _ _, Or.inl ⟨hne, pc, by rw [hpl]; exact hpc, rfl⟩⟩
        · exact Or.inr ⟨c2, List.mem_cons_of_mem _ hc2, hcase⟩
      · rintro (h | ⟨c2, hc2, hcase⟩)
        · exact Or.inl (Or.inl h)
        · rcases List.mem_cons.mp hc2 with rfl | hc3
          · rcases hcase with ⟨_, pc, hpc, rfl⟩ | ⟨hempty, _⟩
            · rw [hpl] at hpc
              exact Or.inl (Or.inr ⟨pc, hpc, rfl⟩)
            · exact absurd hempty hne
          · exact Or.inr ⟨c2, hc3, hcase⟩

theorem nodup_categoriesFold (cats : List Category) :
    ∀ init : List (String × String), init.Nodup →
      (cats.foldl (fun categories category =>
          let parent_categories := category.parentCategories.getD []
          if parent_categories.isEmpty then
            setAdd categories (category.idField.getD "", category.nameField.getD "")
          else
            parent_categories.foldl (fun cs parent_cat =>
              setAdd cs (parent_cat.idField.getD "", parent_cat.nameField.getD ""))
              categories) init).Nodup := by
  induction cats with
  | nil => intro init h; simpa using h
  | cons c cs ih =>
    intro init h
    rw [List.foldl_cons]
    apply ih
    rcases hpl : c.parentCategories.getD [] with _ | ⟨pc0, pcs⟩
    · simpa only [hpl, List.isEmpty_nil, if_pos] using nodup_setAdd _ _ h
    · simp only [hpl, List.isEmpty_cons, if_neg, Bool.false_eq_true, not_false_iff]
      exact nodup_foldl_setAdd_map _ _ _ h

/-- Claim C7: a pair belongs to the category extractor's result exactly
when some category of the menu item contributes it -- through its parents
when it declares any (the leaf's own pair is then suppressed), through its
own (id, name) pair otherwise, with absent id or name fields defaulting to
the empty string -- and the result is duplicate-free (set semantics). -/
theorem c7_category_rollup :
    ∀ menu_item : MenuItem,
      (∀ p : String × String,
        p ∈ extract_categories_from_menu_item menu_item ↔
          ∃ c ∈ menu_item.category.getD [],
            ((c.parentCategories.getD [] ≠ [] ∧
                ∃ pc ∈ c.parentCategories.getD [],
                  p = (pc.idField.getD "", pc.nameField.getD "")) ∨
             (c.parentCategories.getD [] = [] ∧
                p = (c.idField.getD "", c.nameField.getD "")))) ∧
      (extract_categories_from_menu_item menu_item).Nodup := by
  intro menu_item
  constructor
  · intro p
    unfold extract_categories_from_menu_item
    rw [mem_categoriesFold]
    simp
  · unfold extract_categories_from_menu_item
    exact nodup_categoriesFold _ _ List.nodup_nil

/-! Claim C8. -/

theorem servicesFoldl_eq (l : List Service) :
    ∀ acc : List String,
      l.foldl (fun acc service =>
          let service_name := service.serviceName.getD ""
          if service_name ≠ "" then acc ++ [service_name] else acc) acc =
        acc ++ (l.map (fun s => s.serviceName.getD "")).filter
          (fun n => decide (n ≠ "")) := by
  induction l with
  | nil => simp
  | cons s ss ih =>
    intro acc
    rw [List.foldl_cons, ih, List.map_cons, List.filter_cons]
    by_cases h : s.serviceName.getD "" ≠ ""
    · simp [h]
    · simp [h]

/-- Claim C8: the service extractor reads the two service lists
independently and returns, in source order and without deduplication, the
non-empty service names, skipping entries with a missing or empty name; on
the scenario input the WiFi entry is kept and the empty-named entry is
dropped and not counted. -/
theorem c8_service_extraction :
    ∀ variant : RawVariant,
      (extract_services_from_variant variant =
        (((variant.freeServices.getD []).map (fun s => s.serviceName.getD "")).filter
            (fun n => decide (n ≠ "")),
         ((variant.paidServices.getD []).map (fun s => s.serviceName.getD "")).filter
            (fun n => decide (n ≠ "")))) ∧
      (normalizeVariant wifiVariant).free_services = ["WiFi"] ∧
      (normalizeVariant wifiVariant).free_services_count = 1 := by
  intro variant
  refine ⟨?_, by decide, by decide⟩
  unfold extract_services_from_variant
  rw [servicesFoldl_eq, servicesFoldl_eq]
  simp

/-! Claim C10. -/

/-- Claim C10: on a nonempty variant list the provider id is the first
variant's packageId (defaulting to the string "unknown" when absent),
regardless of the remaining variants, and it appears identically as
summary.restaurant_id and as the restaurant_id of the single
restaurant_data entry. -/
theorem c10_restaurant_id :
    ∀ (v0 : RawVariant) (rest : List RawVariant),
      (parse_restaurant_variants (v0 :: rest)).summary.restaurant_id =
        some (v0.packageId.getD "unknown") ∧
      ((parse_restaurant_variants (v0 :: rest)).restaurant_data.map
          (fun rd => rd.restaurant_id)) = [v0.packageId.getD "unknown"] :=
  fun _ _ => ⟨rfl, rfl⟩

/-! Machinery for the error-behaviour analysis of the dynamic model. -/

theorem exceptBind_ok {α β : Type} (a : α) (f : α → Except PyErr β) :
    (Except.ok a >>= f) = f a := rfl

theorem foldlM_ok {σ β : Type} (P : σ → Prop) (step : σ → β → Except PyErr σ) :
    ∀ l : List β, (∀ x ∈ l, ∀ s, P s → ∃ s2, step s x = .ok s2 ∧ P s2) →
      ∀ s, P s → ∃ r, l.foldlM step s = .ok r ∧ P r := by
  intro l
  induction l with
  | nil => intro _ s hs; exact ⟨s, rfl, hs⟩
  | cons x xs ih =>
    intro hstep s hs
    obtain ⟨s2, heq, hP2⟩ := hstep x (List.mem_cons_self _ _) s hs
    obtain ⟨r, hr, hPr⟩ := ih (fun y hy => hstep y (List.mem_cons_of_mem _ hy)) s2 hP2
    refine ⟨r, ?_, hPr⟩
    rw [List.foldlM_cons, heq, exceptBind_ok, hr]

theorem pyGetD_isJStr (fields : List (String × JVal)) (k : String) (d : JVal)
    (hd : isJStr d = true) (h : isJStrOpt (jLookup fields k) = true) :
    isJStr (pyGetD fields k d) = true := by
  unfold pyGetD
  rcases hl : jLookup fields k with _ | v
  · simpa using hd
  · rw [hl] at h
    simpa [isJStrOpt] using h

theorem jHashable_of_isJStr (j : JVal) (h : isJStr j = true) : jHashable j = true := by
  cases j <;> simp_all [isJStr, jHashable]

theorem pySetAdd_ok (l : List JVal) (x : JVal) (hl : l.all isJStr = true)
    (hx : isJStr x = true) :
    ∃ r, pySetAdd l x = .ok r ∧ r.all isJStr = true := by
  refine ⟨if l.any (fun y => pyScalarEq y x) then l else l ++ [x], ?_, ?_⟩
  · simp [pySetAdd, jHashable_of_isJStr x hx]
  · by_cases hmem : l.any (fun y => pyScalarEq y x) = true
    · simpa [hmem] using hl
    · simp only [Bool.not_eq_true] at hmem
      simp [hmem, List.all_append, hl, hx]

theorem pySetAddPair_ok (l : List (JVal × JVal)) (x : JVal × JVal)
    (hl : l.all (fun c => isJStr c.1 && isJStr c.2) = true)
    (hx1 : isJStr x.1 = true) (hx2 : isJStr x.2 = true) :
    ∃ r, pySetAddPair l x = .ok r ∧
      r.all (fun c => isJStr c.1 && isJStr c.2) = true := by
  refine ⟨if l.any (fun y => pyScalarEq y.1 x.1 && pyScalarEq y.2 x.2) then l
    else l ++ [x], ?_, ?_⟩
  · simp [pySetAddPair, jHashable_of_isJStr _ hx1, jHashable_of_isJStr _ hx2]
  · by_cases hmem : l.any (fun y => pyScalarEq y.1 x.1 && pyScalarEq y.2 x.2) = true
    · simpa [hmem] using hl
    · simp only [Bool.not_eq_true] at hmem
      simp [hmem, List.all_append, hl, hx1, hx2]

theorem pySorted_ok (l : List JVal) (h : l.all isJStr = true) :
    ∃ r, pySorted l = .ok r := by
  unfold pySorted
  by_cases hlen : l.length ≤ 1
  · rw [if_pos hlen]
    exact ⟨l, rfl⟩
  · rw [if_neg hlen, if_pos h]
    exact ⟨_, rfl⟩

theorem all_foldl_append {α β : Type} (p : β → Bool) (g : α → List β) (l : List α)
    (hl : ∀ x ∈ l, (g x).all p = true) :
    ∀ acc : List β, acc.all p = true →
      (l.foldl (fun acc y => acc ++ g y) acc).all p = true := by
  induction l with
  | nil => intro acc h; simpa using h
  | cons x xs ih =>
    intro acc hacc
    rw [List.foldl_cons]
    refine ih (fun y hy => hl y (List.mem_cons_of_mem _ hy)) _ ?_
    rw [List.all_append]
    exact And.intro hacc (hl x (List.mem_cons_self _ _)) |> fun hp => by
      simp [hp.1, hp.2]

theorem wfServices_elim (o : Option JVal) (h : wfServices o = true) :
    ∃ xs : List JVal, o.getD (.arr []) = .arr xs ∧ xs.all wfService = true := by
  cases o with
  | none => exact ⟨[], rfl, rfl⟩
  | some v =>
    cases v with
    | arr xs => exact ⟨xs, rfl, by simpa [wfServices] using h⟩
    | null => simp [wfServices] at h
    | jbool b => simp [wfServices] at h
    | num q => simp [wfServices] at h
    | str s => simp [wfServices] at h
    | obj fs => simp [wfServices] at h

theorem serviceStep_ok (svcs : List JVal) (h : svcs.all wfService = true) :
    ∀ acc : List JVal, acc.all isJStr = true →
      ∃ r, (svcs.foldlM (fun acc service => do
          let service_name ← pyGet service "serviceName" (.str "")
          pure (if pyTruthy service_name then acc ++ [service_name] else acc)) acc) =
        .ok r ∧ r.all isJStr = true := by
  intro acc hacc
  refine foldlM_ok (fun s => s.all isJStr = true) _ svcs ?_ acc hacc
  intro x hx s hs
  have hwf : wfService x = true := by
    rw [List.all_eq_true] at h
    exact h x hx
  cases x with
  | obj fields =>
    refine ⟨if pyTruthy (pyGetD fields "serviceName" (.str "")) then
      s ++ [pyGetD fields "serviceName" (.str "")] else s, rfl, ?_⟩
    by_cases ht : pyTruthy (pyGetD fields "serviceName" (.str "")) = true
    · rw [if_pos ht]
      have hstr : isJStr (pyGetD fields "serviceName" (.str "")) = true :=
        pyGetD_isJStr _ _ _ rfl (by simpa [wfService] using hwf)
      simp [List.all_append, hs, hstr]
    · simp only [Bool.not_eq_true] at ht
      rw [ht]
      simpa using hs
  | null => simp [wfService] at hwf
  | jbool b => simp [wfService] at hwf
  | num q => simp [wfService] at hwf
  | str s2 => simp [wfService] at hwf
  | arr xs => simp [wfService] at hwf

theorem extractServicesJ_ok (fields : List (String × JVal))
    (hfree : wfServices (jLookup fields "freeServices") = true)
    (hpaid : wfServices (jLookup fields "paidServices") = true) :
    ∃ fr pa, extractServicesJ (.obj fields) = .ok (fr, pa) ∧
      fr.all isJStr = true ∧ pa.all isJStr = true := by
  obtain ⟨fsvcs, hfs, hfsall⟩ := wfServices_elim _ hfree
  obtain ⟨psvcs, hps, hpsall⟩ := wfServices_elim _ hpaid
  obtain ⟨fr, hfr, hfrall⟩ := serviceStep_ok fsvcs hfsall [] rfl
  obtain ⟨pa, hpa, hpaall⟩ := serviceStep_ok psvcs hpsall [] rfl
  refine ⟨fr, pa, ?_, hfrall, hpaall⟩
  unfold extractServicesJ
  have h1 : pyGet (JVal.obj fields) "freeServices" (.arr []) = .ok (.arr fsvcs) := by
    show Except.ok (pyGetD fields "freeServices" (.arr [])) = _
    unfold pyGetD
    rw [hfs]
  have h2 : pyGet (JVal.obj fields) "paidServices" (.arr []) = .ok (.arr psvcs) := by
    show Except.ok (pyGetD fields "paidServices" (.arr [])) = _
    unfold pyGetD
    rw [hps]
  rw [h1, exceptBind_ok]
  show (pyIter (.arr fsvcs) >>= _) = _
  rw [show pyIter (.arr fsvcs) = .ok fsvcs from rfl, exceptBind_ok, hfr, exceptBind_ok,
    h2, exceptBind_ok, show pyIter (.arr psvcs) = .ok psvcs from rfl, exceptBind_ok,
    hpa, exceptBind_ok]
  rfl

theorem wfCategoryLeaf_elim (j : JVal) (h : wfCategoryLeaf j = true) :
    ∃ fields, j = .obj fields ∧
      isJStr (pyGetD fields "_id" (.str "")) = true ∧
      isJStr (pyGetD fields "name" (.str "")) = true := by
  cases j with
  | obj fields =>
    simp only [wfCategoryLeaf, Bool.and_eq_true] at h
    exact ⟨fields, rfl, pyGetD_isJStr _ _ _ rfl h.1, pyGetD_isJStr _ _ _ rfl h.2⟩
  | null => simp [wfCategoryLeaf] at h
  | jbool b => simp [wfCategoryLeaf] at h
  | num q => simp [wfCategoryLeaf] at h
  | str s => simp [wfCategoryLeaf] at h
  | arr xs => simp [wfCategoryLeaf] at h

theorem wfCategory_elim (j : JVal) (h : wfCategory j = true) :
    ∃ fields, j = .obj fields ∧
      isJStr (pyGetD fields "_id" (.str "")) = true ∧
      isJStr (pyGetD fields "name" (.str "")) = true ∧
      ∃ ps : List JVal, pyGetD fields "parentCategories" (.arr []) = .arr ps ∧
        ps.all wfCategoryLeaf = true := by
  cases j with
  | obj fields =>
    simp only [wfCategory, Bool.and_eq_true] at h
    obtain ⟨⟨hid, hname⟩, hps⟩ := h
    refine ⟨fields, rfl, pyGetD_isJStr _ _ _ rfl hid, pyGetD_isJStr _ _ _ rfl hname, ?_⟩
    rcases hl : jLookup fields "parentCategories" with _ | v
    · exact ⟨[], by unfold pyGetD; rw [hl]; rfl, rfl⟩
    · rw [hl] at hps
      cases v with
      | arr ps => exact ⟨ps, by unfold pyGetD; rw [hl]; rfl, hps⟩
      | null => simp at hps
      | jbool b => simp at hps
      | num q => simp at hps
      | str s => simp at hps
      | obj fs => simp at hps
  | null => simp [wfCategory] at h
  | jbool b => simp [wfCategory] at h
  | num q => simp [wfCategory] at h
  | str s => simp [wfCategory] at h
  | arr xs => simp [wfCategory] at h

theorem parentsFold_ok (ps : List JVal) (h : ps.all wfCategoryLeaf = true) :
    ∀ acc : List (JVal × JVal), acc.all (fun c => isJStr c.1 && isJStr c.2) = true →
      ∃ r, (ps.foldlM (fun cs parent_cat => do
          let pid ← pyGet parent_cat "_id" (.str "")
          let pname ← pyGet parent_cat "name" (.str "")
          pySetAddPair cs (pid, pname)) acc) = .ok r ∧
        r.all (fun c => isJStr c.1 && isJStr c.2) = true := by
  intro acc hacc
  refine foldlM_ok (fun s => s.all (fun c => isJStr c.1 && isJStr c.2) = true) _ ps
    ?_ acc hacc
  intro x hx s hs
  have hwf : wfCategoryLeaf x = true := by
    rw [List.all_eq_true] at h
    exact h x hx
  obtain ⟨f2, rfl, hid, hname⟩ := wfCategoryLeaf_elim x hwf
  obtain ⟨r, hr, hrP⟩ := pySetAddPair_ok s
    (pyGetD f2 "_id" (.str ""), pyGetD f2 "name" (.str "")) hs hid hname
  exact ⟨r, hr, hrP⟩

theorem categoriesFoldM_ok (cats : List JVal) (h : cats.all wfCategory = true) :
    ∀ acc : List (JVal × JVal), acc.all (fun c => isJStr c.1 && isJStr c.2) = true →
      ∃ r, (cats.foldlM (fun categories category => do
          let parents_j ← pyGet category "parentCategories" (.arr [])
          if pyTruthy parents_j then do
            let parents ← pyIter parents_j
            parents.foldlM (fun cs parent_cat => do
              let pid ← pyGet parent_cat "_id" (.str "")
              let pname ← pyGet parent_cat "name" (.str "")
              pySetAddPair cs (pid, pname)) categories
          else do
            let cid ← pyGet category "_id" (.str "")
            let cname ← pyGet category "name" (.str "")
            pySetAddPair categories (cid, cname)) acc) = .ok r ∧
        r.all (fun c => isJStr c.1 && isJStr c.2) = true := by
  intro acc hacc
  refine foldlM_ok (fun s => s.all (fun c => isJStr c.1 && isJStr c.2) = true) _ cats
    ?_ acc hacc
  intro x hx s hs
  have hwf : wfCategory x = true := by
    rw [List.all_eq_true] at h
    exact h x hx
  obtain ⟨f2, rfl, hid, hname, ps, hps, hpsall⟩ := wfCategory_elim x hwf
  show ∃ s2, (Except.ok (pyGetD f2 "parentCategories" (.arr [])) >>= fun parents_j =>
    if pyTruthy parents_j then do
      let parents ← pyIter parents_j
      parents.foldlM (fun cs parent_cat => do
        let pid ← pyGet parent_cat "_id" (.str "")
        let pname ← pyGet parent_cat "name" (.str "")
        pySetAddPair cs (pid, pname)) s
    else do
      let cid ← pyGet (JVal.obj f2) "_id" (.str "")
      let cname ← pyGet (JVal.obj f2) "name" (.str "")
      pySetAddPair s (cid, cname)) = .ok s2 ∧
    s2.all (fun c => isJStr c.1 && isJStr c.2) = true
  rw [exceptBind_ok, hps]
  cases ps with
  | nil =>
    rw [if_neg (by simp [pyTruthy])]
    obtain ⟨r, hr, hrP⟩ := pySetAddPair_ok s
      (pyGetD f2 "_id" (.str ""), pyGetD f2 "name" (.str "")) hs hid hname
    exact ⟨r, hr, hrP⟩
  | cons p0 ps2 =>
    rw [if_pos (by simp [pyTruthy])]
    obtain ⟨r, hr, hrP⟩ := parentsFold_ok (p0 :: ps2) hpsall s hs
    refine ⟨r, ?_, hrP⟩
    rw [show pyIter (.arr (p0 :: ps2)) = .ok (p0 :: ps2) from rfl, exceptBind_ok, hr]

theorem wfMenuItem_elim (j : JVal) (h : wfMenuItem j = true) :
    ∃ fields, j = .obj fields ∧
      (∃ cs : List JVal, pyGetD fields "cuisine" (.arr []) = .arr cs ∧
        cs.all isJStr = true) ∧
      (∃ cats : List JVal, pyGetD fields "category" (.arr []) = .arr cats ∧
        cats.all wfCategory = true) := by
  cases j with
  | obj fields =>
    simp only [wfMenuItem, Bool.and_eq_true] at h
    obtain ⟨hcu, hcat⟩ := h
    refine ⟨fields, rfl, ?_, ?_⟩
    · rcases hl : jLookup fields "cuisine" with _ | v
      · exact ⟨[], by unfold pyGetD; rw [hl]; rfl, rfl⟩
      · rw [hl] at hcu
        cases v with
        | arr cs => exact ⟨cs, by unfold pyGetD; rw [hl]; rfl, hcu⟩
        | null => simp at hcu
        | jbool b => simp at hcu
        | num q => simp at hcu
        | str s => simp at hcu
        | obj fs => simp at hcu
    · rcases hl : jLookup fields "category" with _ | v
      · exact ⟨[], by unfold pyGetD; rw [hl]; rfl, rfl⟩
      · rw [hl] at hcat
        cases v with
        | arr cats => exact ⟨cats, by unfold pyGetD; rw [hl]; rfl, hcat⟩
        | null => simp at hcat
        | jbool b => simp at hcat
        | num q => simp at hcat
        | str s => simp at hcat
        | obj fs => simp at hcat
  | null => simp [wfMenuItem] at h
  | jbool b => simp [wfMenuItem] at h
  | num q => simp [wfMenuItem] at h
  | str s => simp [wfMenuItem] at h
  | arr xs => simp [wfMenuItem] at h

theorem extractCategoriesJ_ok (fields : List (String × JVal)) (cats : List JVal)
    (hcat : pyGetD fields "category" (.arr []) = .arr cats)
    (hall : cats.all wfCategory = true) :
    ∃ r, extractCategoriesJ (.obj fields) = .ok r ∧
      r.all (fun c => isJStr c.1 && isJStr c.2) = true := by
  obtain ⟨r, hr, hrP⟩ := categoriesFoldM_ok cats hall [] rfl
  refine ⟨r, ?_, hrP⟩
  unfold extractCategoriesJ
  rw [show pyGet (JVal.obj fields) "category" (.arr []) =
    .ok (pyGetD fields "category" (.arr [])) from rfl, exceptBind_ok, hcat,
    show pyIter (.arr cats) = .ok cats from rfl, exceptBind_ok, hr]

theorem wfVariant_elim (j : JVal) (h : wfVariant j = true) :
    ∃ fields, j = .obj fields ∧
      (∃ mis : List JVal, pyGetD fields "menuItems" (.arr []) = .arr mis ∧
        mis.all wfMenuItem = true) ∧
      isJStr (pyGetD fields "venueId" (.str "")) = true ∧
      (numVal (pyGetD fields "cost" (.num 0))).isSome = true ∧
      wfServices (jLookup fields "freeServices") = true ∧
      wfServices (jLookup fields "paidServices") = true := by
  cases j with
  | obj fields =>
    simp only [wfVariant, Bool.and_eq_true] at h
    obtain ⟨⟨⟨⟨hmi, hven⟩, hcost⟩, hfree⟩, hpaid⟩ := h
    refine ⟨fields, rfl, ?_, pyGetD_isJStr _ _ _ rfl hven, ?_, hfree, hpaid⟩
    · rcases hl : jLookup fields "menuItems" with _ | v
      · exact ⟨[], by unfold pyGetD; rw [hl]; rfl, rfl⟩
      · rw [hl] at hmi
        cases v with
        | arr mis => exact ⟨mis, by unfold pyGetD; rw [hl]; rfl, hmi⟩
        | null => simp at hmi
        | jbool b => simp at hmi
        | num q => simp at hmi
        | str s => simp at hmi
        | obj fs => simp at hmi
    · rcases hl : jLookup fields "cost" with _ | v
      · unfold pyGetD
        rw [hl]
        rfl
      · rw [hl] at hcost
        unfold pyGetD
        rw [hl]
        exact hcost
  | null => simp [wfVariant] at h
  | jbool b => simp [wfVariant] at h
  | num q => simp [wfVariant] at h
  | str s => simp [wfVariant] at h
  | arr xs => simp [wfVariant] at h

theorem cuisineFold_ok (cs : List JVal) (h : cs.all isJStr = true)
    (init : List JVal × List JVal) (h1 : init.1.all isJStr = true)
    (h2 : init.2.all isJStr = true) :
    ∃ cu : List JVal × List JVal,
      (cs.foldlM (fun (cu : List JVal × List JVal) cuisine_id => do
        let vc ← pySetAdd cu.1 cuisine_id
        let ai ← pySetAdd cu.2 cuisine_id
        pure (vc, ai)) init) = .ok cu ∧
      cu.1.all isJStr = true ∧ cu.2.all isJStr = true := by
  refine foldlM_ok
    (fun cu : List JVal × List JVal => cu.1.all isJStr = true ∧ cu.2.all isJStr = true)
    _ cs ?_ init ⟨h1, h2⟩
  intro cid hcid cu hcu
  have hcidstr : isJStr cid = true := List.all_eq_true.mp h cid hcid
  obtain ⟨vc, hvc, hvcP⟩ := pySetAdd_ok cu.1 cid hcu.1 hcidstr
  obtain ⟨ai, hai, haiP⟩ := pySetAdd_ok cu.2 cid hcu.2 hcidstr
  refine ⟨(vc, ai), ?_, hvcP, haiP⟩
  show (pySetAdd cu.1 cid >>= fun vc => pySetAdd cu.2 cid >>= fun ai =>
    pure (vc, ai)) = _
  rw [hvc, exceptBind_ok, hai, exceptBind_ok]
  rfl

theorem catsAddFold_ok (catsr : List (JVal × JVal))
    (h : catsr.all (fun c => isJStr c.1 && isJStr c.2) = true)
    (init : List (JVal × JVal))
    (hinit : init.all (fun c => isJStr c.1 && isJStr c.2) = true) :
    ∃ r, (catsr.foldlM (fun a c => pySetAddPair a c) init) = .ok r ∧
      r.all (fun c => isJStr c.1 && isJStr c.2) = true := by
  refine foldlM_ok (fun a => a.all (fun c => isJStr c.1 && isJStr c.2) = true) _ catsr
    ?_ init hinit
  intro c hc a ha
  have hcs := List.all_eq_true.mp h c hc
  rw [Bool.and_eq_true] at hcs
  exact pySetAddPair_ok a c ha hcs.1 hcs.2

theorem menuFold_ok (mis : List JVal) (h : mis.all wfMenuItem = true) :
    ∀ (init : List JVal × List (JVal × JVal) × List JVal),
      init.1.all isJStr = true →
      init.2.1.all (fun c => isJStr c.1 && isJStr c.2) = true →
      init.2.2.all isJStr = true →
      ∃ st : List JVal × List (JVal × JVal) × List JVal,
        (mis.foldlM (fun (st : List JVal × List (JVal × JVal) × List JVal) menu_item => do
          let cuisines_j ← pyGet menu_item "cuisine" (.arr [])
          let cuisines ← pyIter cuisines_j
          let sets ← cuisines.foldlM (fun (cu : List JVal × List JVal) cuisine_id => do
            let vc ← pySetAdd cu.1 cuisine_id
            let ai ← pySetAdd cu.2 cuisine_id
            pure (vc, ai)) (st.1, st.2.2)
          let cats ← extractCategoriesJ menu_item
          let vcat ← cats.foldlM (fun a c => pySetAddPair a c) st.2.1
          pure (sets.1, vcat, sets.2)) init) = .ok st ∧
        st.1.all isJStr = true ∧
        st.2.1.all (fun c => isJStr c.1 && isJStr c.2) = true ∧
        st.2.2.all isJStr = true := by
  intro init h1 h2 h3
  refine foldlM_ok (fun st : List JVal × List (JVal × JVal) × List JVal =>
      st.1.all isJStr = true ∧
      st.2.1.all (fun c => isJStr c.1 && isJStr c.2) = true ∧
      st.2.2.all isJStr = true) _ mis ?_ init ⟨h1, h2, h3⟩
  intro mi hmem st hP
  have hwfmi : wfMenuItem mi = true := List.all_eq_true.mp h mi hmem
  obtain ⟨f2, rfl, ⟨cs, hcs, hcsall⟩, cats, hcat, hcatall⟩ := wfMenuItem_elim mi hwfmi
  obtain ⟨cu, hcu, hcu1, hcu2⟩ := cuisineFold_ok cs hcsall (st.1, st.2.2) hP.1 hP.2.2
  obtain ⟨catsr, hcatsr, hcatsrP⟩ := extractCategoriesJ_ok f2 cats hcat hcatall
  obtain ⟨vcat, hvcatEq, hvcatP⟩ := catsAddFold_ok catsr hcatsrP st.2.1 hP.2.1
  refine ⟨(cu.1, vcat, cu.2), ?_, hcu1, hvcatP, hcu2⟩
  show (Except.ok (pyGetD f2 "cuisine" (.arr [])) >>= fun cuisines_j => do
    let cuisines ← pyIter cuisines_j
    let sets ← cuisines.foldlM (fun (cu : List JVal × List JVal) cuisine_id => do
      let vc ← pySetAdd cu.1 cuisine_id
      let ai ← pySetAdd cu.2 cuisine_id
      pure (vc, ai)) (st.1, st.2.2)
    let cats ← extractCategoriesJ (JVal.obj f2)
    let vcat ← cats.foldlM (fun a c => pySetAddPair a c) st.2.1
    pure (sets.1, vcat, sets.2)) = _
  rw [exceptBind_ok, hcs, show pyIter (.arr cs) = .ok cs from rfl, exceptBind_ok,
    hcu, exceptBind_ok, hcatsr, exceptBind_ok, hvcatEq, exceptBind_ok]
  rfl

theorem processVariantJ_ok (v : JVal) (hwf : wfVariant v = true)
    (all_ids : List JVal) (hids : all_ids.all isJStr = true) :
    ∃ nv ids2, processVariantJ all_ids v = .ok (nv, ids2) ∧
      wfNVJ nv = true ∧ ids2.all isJStr = true := by
  obtain ⟨fields, rfl, ⟨mis, hmi, hmiall⟩, hven, hcost, hfree, hpaid⟩ :=
    wfVariant_elim v hwf
  obtain ⟨fr, pa, hsv, hfrall, hpaall⟩ := extractServicesJ_ok fields hfree hpaid
  obtain ⟨st, hst, hst1, hst2, hst3⟩ := menuFold_ok mis hmiall ([], [], all_ids) rfl rfl hids
  obtain ⟨scl, hscl⟩ := pySorted_ok st.1 hst1
  refine ⟨{ variant_id := pyGetD fields "_id" (.str "unknown")
            variant_name := pyGetD fields "name" (.str "unnamed")
            cuisines := scl
            cuisine_count := scl.length
            menu_items_count := mis.length
            categories := st.2.1
            categories_count := st.2.1.length
            cost := pyGetD fields "cost" (.num 0)
            min_persons := pyGetD fields "minPersons" (.num 0)
            max_persons := pyGetD fields "maxPersons" (.num 0)
            is_customized := pyGetD fields "isCustomized" (.jbool false)
            venue_id := pyGetD fields "venueId" (.str "")
            free_services := fr
            paid_services := pa
            free_services_count := fr.length
            paid_services_count := pa.length }, st.2.2, ?_, ?_, hst3⟩
  · unfold processVariantJ
    rw [show pyGet (JVal.obj fields) "_id" (.str "unknown") =
        .ok (pyGetD fields "_id" (.str "unknown")) from rfl, exceptBind_ok,
      show pyGet (JVal.obj fields) "name" (.str "unnamed") =
        .ok (pyGetD fields "name" (.str "unnamed")) from rfl, exceptBind_ok,
      show pyGet (JVal.obj fields) "menuItems" (.arr []) =
        .ok (pyGetD fields "menuItems" (.arr [])) from rfl, exceptBind_ok, hmi,
      show pyGet (JVal.obj fields) "venueId" (.str "") =
        .ok (pyGetD fields "venueId" (.str "")) from rfl, exceptBind_ok,
      show pyGet (JVal.obj fields) "cost" (.num 0) =
        .ok (pyGetD fields "cost" (.num 0)) from rfl, exceptBind_ok,
      hsv, exceptBind_ok,
      show pyIter (.arr mis) = .ok mis from rfl, exceptBind_ok,
      hst, exceptBind_ok, hscl, exceptBind_ok,
      show pyGet (JVal.obj fields) "minPersons" (.num 0) =
        .ok (pyGetD fields "minPersons" (.num 0)) from rfl, exceptBind_ok,
      show pyGet (JVal.obj fields) "maxPersons" (.num 0) =
        .ok (pyGetD fields "maxPersons" (.num 0)) from rfl, exceptBind_ok,
      show pyGet (JVal.obj fields) "isCustomized" (.jbool false) =
        .ok (pyGetD fields "isCustomized" (.jbool false)) from rfl, exceptBind_ok]
    rfl
  · simp only [wfNVJ, Bool.and_eq_true]
    exact ⟨⟨⟨⟨hcost, hven⟩, hst2⟩, hfrall⟩, hpaall⟩

theorem wfNVJ_elim (v : NVJ) (h : wfNVJ v = true) :
    (numVal v.cost).isSome = true ∧ isJStr v.venue_id = true ∧
      v.categories.all (fun c => isJStr c.1 && isJStr c.2) = true ∧
      v.free_services.all isJStr = true ∧ v.paid_services.all isJStr = true := by
  simp only [wfNVJ, Bool.and_eq_true] at h
  exact ⟨h.1.1.1.1, h.1.1.1.2, h.1.1.2, h.1.2, h.2⟩

theorem costsFold_ok (ms : List NVJ) (h : ms.all wfNVJ = true) :
    ∃ costs : List JVal,
      (ms.foldlM (fun acc v => do
        let b ← pyGtZero v.cost
        pure (if b then acc ++ [v.cost] else acc)) ([] : List JVal)) = .ok costs := by
  have hok := foldlM_ok (fun _ : List JVal => True) (fun acc v => do
      let b ← pyGtZero v.cost
      pure (if b then acc ++ [v.cost] else acc)) ms ?_ [] trivial
  · obtain ⟨costs, hc, _⟩ := hok
    exact ⟨costs, hc⟩
  · intro v hv s _
    have hnum := (wfNVJ_elim v (List.all_eq_true.mp h v hv)).1
    rcases hq : numVal v.cost with _ | q
    · rw [hq] at hnum
      simp at hnum
    · have hgt : pyGtZero v.cost = .ok (decide (0 < q)) := by
        unfold pyGtZero
        rw [hq]
      refine ⟨if decide (0 < q) then s ++ [v.cost] else s, ?_, trivial⟩
      show (pyGtZero v.cost >>= fun b => pure (if b then s ++ [v.cost] else s)) = _
      rw [hgt, exceptBind_ok]
      rfl

theorem catUnionFold_ok (ms : List NVJ) (h : ms.all wfNVJ = true) :
    ∃ r, (ms.foldlM (fun acc v =>
        v.categories.foldlM (fun a c => pySetAddPair a c) acc)
      ([] : List (JVal × JVal))) = .ok r := by
  have hok := foldlM_ok
    (fun a : List (JVal × JVal) => a.all (fun c => isJStr c.1 && isJStr c.2) = true)
    (fun acc v => v.categories.foldlM (fun a c => pySetAddPair a c) acc) ms ?_ [] rfl
  · obtain ⟨r, hr, _⟩ := hok
    exact ⟨r, hr⟩
  · intro v hv s hs
    exact catsAddFold_ok v.categories
      (wfNVJ_elim v (List.all_eq_true.mp h v hv)).2.2.1 s hs

theorem venuesFold_ok (ms : List NVJ) (h : ms.all wfNVJ = true) :
    ∃ r, (ms.foldlM (fun acc v =>
        if pyTruthy v.venue_id then pySetAdd acc v.venue_id else pure acc)
      ([] : List JVal)) = .ok r := by
  have hok := foldlM_ok (fun a : List JVal => a.all isJStr = true)
    (fun acc v => if pyTruthy v.venue_id then pySetAdd acc v.venue_id else pure acc)
    ms ?_ [] rfl
  · obtain ⟨r, hr, _⟩ := hok
    exact ⟨r, hr⟩
  · intro v hv s hs
    show ∃ s2, (if pyTruthy v.venue_id = true then pySetAdd s v.venue_id
      else pure s) = Except.ok s2 ∧ s2.all isJStr = true
    by_cases ht : pyTruthy v.venue_id = true
    · rw [if_pos ht]
      exact pySetAdd_ok s v.venue_id hs
        (wfNVJ_elim v (List.all_eq_true.mp h v hv)).2.1
    · rw [if_neg ht]
      exact ⟨s, rfl, hs⟩

theorem strSetFold_ok (l : List JVal) (h : l.all isJStr = true) :
    ∃ r, (l.foldlM (fun acc s => pySetAdd acc s) ([] : List JVal)) = .ok r := by
  have hok := foldlM_ok (fun a : List JVal => a.all isJStr = true)
    (fun acc s => pySetAdd acc s) l ?_ [] rfl
  · obtain ⟨r, hr, _⟩ := hok
    exact ⟨r, hr⟩
  · intro x hx s hs
    exact pySetAdd_ok s x hs (List.all_eq_true.mp h x hx)

theorem formatCombinationJ_ok (k : List JVal) (ms : List NVJ)
    (h : ms.all wfNVJ = true) :
    ∃ g, formatCombinationJ k ms = .ok g := by
  obtain ⟨costs, hcosts⟩ := costsFold_ok ms h
  obtain ⟨cats, hcats⟩ := catUnionFold_ok ms h
  obtain ⟨ven, hven⟩ := venuesFold_ok ms h
  have hfreeall : (ms.foldl (fun acc v => acc ++ v.free_services)
      ([] : List JVal)).all isJStr = true :=
    all_foldl_append isJStr (fun v => v.free_services) ms
      (fun v hv => (wfNVJ_elim v (List.all_eq_true.mp h v hv)).2.2.2.1) [] rfl
  have hpaidall : (ms.foldl (fun acc v => acc ++ v.paid_services)
      ([] : List JVal)).all isJStr = true :=
    all_foldl_append isJStr (fun v => v.paid_services) ms
      (fun v hv => (wfNVJ_elim v (List.all_eq_true.mp h v hv)).2.2.2.2) [] rfl
  obtain ⟨ufree, hufree⟩ := strSetFold_ok _ hfreeall
  obtain ⟨upaid, hupaid⟩ := strSetFold_ok _ hpaidall
  unfold formatCombinationJ
  rw [hcosts, exceptBind_ok, hcats, exceptBind_ok, hven, exceptBind_ok]
  simp only [hufree, exceptBind_ok, hupaid]
  exact ⟨_, rfl⟩

theorem groupInsertJ_member_src (key : List JVal) (v : NVJ)
    (A : List (List JVal × List NVJ)) :
    ∀ p ∈ groupInsertJ key v A, ∀ m ∈ p.2, m = v ∨ ∃ q ∈ A, m ∈ q.2 := by
  induction A with
  | nil =>
    intro p hp m hm
    simp only [groupInsertJ, List.mem_singleton] at hp
    subst hp
    simp only [List.mem_singleton] at hm
    exact Or.inl hm
  | cons q rest ih =>
    obtain ⟨k2, ms2⟩ := q
    intro p hp m hm
    simp only [groupInsertJ] at hp
    by_cases h1 : listScalarEq k2 key = true
    · rw [if_pos h1] at hp
      rcases List.mem_cons.mp hp with rfl | hp2
      · rcases List.mem_append.mp hm with hm2 | hm2
        · exact Or.inr ⟨(k2, ms2), List.mem_cons_self _ _, hm2⟩
        · simp only [List.mem_singleton] at hm2
          exact Or.inl hm2
      · exact Or.inr ⟨p, List.mem_cons_of_mem _ hp2, hm⟩
    · rw [if_neg h1] at hp
      rcases List.mem_cons.mp hp with rfl | hp2
      · exact Or.inr ⟨_, List.mem_cons_self _ _, hm⟩
      · rcases ih p hp2 m hm with h2 | ⟨q2, hq2, hmq⟩
        · exact Or.inl h2
        · exact Or.inr ⟨q2, List.mem_cons_of_mem _ hq2, hmq⟩

theorem groupsJ_member_src (nvs : List NVJ) :
    ∀ p ∈ nvs.foldl (fun acc v => groupInsertJ v.cuisines v acc) [],
      ∀ m ∈ p.2, m ∈ nvs := by
  suffices hgen : ∀ acc : List (List JVal × List NVJ),
      (∀ p ∈ acc, ∀ m ∈ p.2, m ∈ nvs) →
      ∀ p ∈ nvs.foldl (fun acc v => groupInsertJ v.cuisines v acc) acc,
        ∀ m ∈ p.2, m ∈ nvs by
    exact hgen [] (by intro p hp; simp at hp)
  suffices hgen2 : ∀ (l : List NVJ) (acc : List (List JVal × List NVJ)),
      (∀ x ∈ l, x ∈ nvs) → (∀ p ∈ acc, ∀ m ∈ p.2, m ∈ nvs) →
      ∀ p ∈ l.foldl (fun acc v => groupInsertJ v.cuisines v acc) acc,
        ∀ m ∈ p.2, m ∈ nvs by
    intro acc hacc
    exact hgen2 nvs acc (fun x hx => hx) hacc
  intro l
  induction l with
  | nil => intro acc _ hacc; simpa using hacc
  | cons v vs ih =>
    intro acc hl hacc
    rw [List.foldl_cons]
    refine ih _ (fun x hx => hl x (List.mem_cons_of_mem _ hx)) ?_
    intro p hp m hm
    rcases groupInsertJ_member_src v.cuisines v acc p hp m hm with rfl | ⟨q, hq, hmq⟩
    · exact hl m (List.mem_cons_self _ _)
    · exact hacc q hq m hmq

theorem variantsLoop_ok (vs : List JVal) (h : vs.all wfVariant = true) :
    ∃ acc : List NVJ × List JVal,
      (vs.foldlM (fun (acc : List NVJ × List JVal) variant => do
        let r ← processVariantJ acc.2 variant
        pure (acc.1 ++ [r.1], r.2)) (([], []) : List NVJ × List JVal)) = .ok acc ∧
      acc.1.all wfNVJ = true ∧ acc.2.all isJStr = true := by
  refine foldlM_ok (fun acc : List NVJ × List JVal =>
    acc.1.all wfNVJ = true ∧ acc.2.all isJStr = true) _ vs ?_ ([], []) ⟨rfl, rfl⟩
  intro x hx s hs
  obtain ⟨nv, ids2, heq, hnv, hids2⟩ :=
    processVariantJ_ok x (List.all_eq_true.mp h x hx) s.2 hs.2
  refine ⟨(s.1 ++ [nv], ids2), ?_, ?_, hids2⟩
  · show (processVariantJ s.2 x >>= fun r => pure (s.1 ++ [r.1], r.2)) = _
    rw [heq, exceptBind_ok]
    rfl
  · simp [List.all_append, hs.1, hnv]

theorem formattedLoop_ok (groups : List (List JVal × List NVJ))
    (h : ∀ p ∈ groups, p.2.all wfNVJ = true) :
    ∃ r, (groups.foldlM (fun acc p => do
        let g ← formatCombinationJ p.1 p.2
        pure (acc ++ [g])) ([] : List JVal)) = .ok r := by
  have hok := foldlM_ok (fun _ : List JVal => True) (fun acc p => do
      let g ← formatCombinationJ p.1 p.2
      pure (acc ++ [g])) groups ?_ [] trivial
  · obtain ⟨r, hr, _⟩ := hok
    exact ⟨r, hr⟩
  · intro p hp s _
    obtain ⟨g, hg⟩ := formatCombinationJ_ok p.1 p.2 (h p hp)
    refine ⟨s ++ [g], ?_, trivial⟩
    show (formatCombinationJ p.1 p.2 >>= fun g => pure (s ++ [g])) = _
    rw [hg, exceptBind_ok]
    rfl

theorem parseJ_not_mapping (j : JVal) (h : ∀ fields, j ≠ .obj fields) :
    parseRestaurantVariantsJ j = .error (.attributeError "no attribute get") := by
  cases j with
  | obj fields => exact absurd rfl (h fields)
  | null => rfl
  | jbool b => rfl
  | num q => rfl
  | str s => rfl
  | arr xs => rfl

theorem parseJ_falsy_variants (fields : List (String × JVal))
    (h : pyTruthy (pyGetD fields "variants" (.arr [])) = false) :
    parseRestaurantVariantsJ (.obj fields) = .ok emptyResultJ := by
  unfold parseRestaurantVariantsJ
  rw [show pyGet (JVal.obj fields) "variants" (.arr []) =
    .ok (pyGetD fields "variants" (.arr [])) from rfl, exceptBind_ok, h]
  rfl

theorem parseJ_wf_ok (j : JVal) (h : wfResponse j = true) :
    ∃ r, parseRestaurantVariantsJ j = .ok r := by
  cases j with
  | obj fields =>
    rcases hl : jLookup fields "variants" with _ | v
    · refine ⟨emptyResultJ, parseJ_falsy_variants fields ?_⟩
      unfold pyGetD
      rw [hl]
      rfl
    · simp only [wfResponse, hl] at h
      cases v with
      | arr vs =>
        have hget : pyGetD fields "variants" (.arr []) = .arr vs := by
          unfold pyGetD
          rw [hl]
          rfl
        cases vs with
        | nil =>
          refine ⟨emptyResultJ, parseJ_falsy_variants fields ?_⟩
          rw [hget]
          rfl
        | cons v0 vrest =>
          have hvsall : (v0 :: vrest).all wfVariant = true := h
          obtain ⟨f0, hv0eq, _⟩ := wfVariant_elim v0
            (List.all_eq_true.mp hvsall v0 (List.mem_cons_self _ _))
          obtain ⟨looped, hloop, hl1, hl2⟩ := variantsLoop_ok (v0 :: vrest) hvsall
          have hmems : ∀ p ∈ (looped.1.foldl
              (fun acc v => groupInsertJ v.cuisines v acc) []),
              p.2.all wfNVJ = true := by
            intro p hp
            rw [List.all_eq_true]
            intro m hm
            exact List.all_eq_true.mp hl1 m (groupsJ_member_src looped.1 p hp m hm)
          obtain ⟨fmt, hfmt⟩ := formattedLoop_ok _ hmems
          obtain ⟨sids, hsids⟩ := pySorted_ok looped.2 hl2
          unfold parseRestaurantVariantsJ
          rw [show pyGet (JVal.obj fields) "variants" (.arr []) =
            .ok (pyGetD fields "variants" (.arr [])) from rfl, exceptBind_ok, hget,
            show (!pyTruthy (JVal.arr (v0 :: vrest))) = false from rfl,
            if_neg (by simp)]
          rw [show pyIndexZero (JVal.arr (v0 :: vrest)) = .ok v0 from rfl,
            exceptBind_ok, hv0eq,
            show pyGet (JVal.obj f0) "packageId" (.str "unknown") =
              .ok (pyGetD f0 "packageId" (.str "unknown")) from rfl, exceptBind_ok,
            show pyIter (JVal.arr (JVal.obj f0 :: vrest)) =
              .ok (JVal.obj f0 :: vrest) from rfl,
            exceptBind_ok]
          rw [← hv0eq, hloop, exceptBind_ok]
          simp only [hfmt, exceptBind_ok, hsids]
          exact ⟨_, rfl⟩
      | null => simp at h
      | jbool b => simp at h
      | num q => simp at h
      | str s => simp at h
      | obj fs => simp at h
  | null => simp [wfResponse] at h
  | jbool b => simp [wfResponse] at h
  | num q => simp [wfResponse] at h
  | str s => simp [wfResponse] at h
  | arr xs => simp [wfResponse] at h

/-! Claim C3. -/

/-- Claim C3, counterexample: a mapping whose variants key holds null (not
a sequence) is silently folded into the empty result instead of raising;
a structurally valid top level whose variant carries a numeric menuItems
raises a TypeError even though the top level is fine; and a non-mapping top
level raises the built-in AttributeError of the failed .get lookup — the
code defines no InvalidInputError at all. -/
theorem c3_counterexample :
    parseRestaurantVariantsJ jNullVariants = .ok emptyResultJ ∧
    parseRestaurantVariantsJ jBadMenuItems =
      .error (.typeError "object is not iterable") ∧
    parseRestaurantVariantsJ jNotMapping =
      .error (.attributeError "no attribute get") :=
  ⟨rfl, rfl, rfl⟩

/-- Claim C3, amended: a non-mapping top level raises the built-in
AttributeError of the .get lookup (there is no InvalidInputError in the
code); a falsy variants value — absent, null, false, 0, empty string, empty
list or empty mapping — is silently treated as zero variants and yields the
empty result; and on a mapping whose variants decode to a list of
well-typed variant records every nested field may be absent without
raising: the function returns normally, all defaults applied. -/
theorem c3_error_behavior :
    (∀ j : JVal, (∀ fields, j ≠ .obj fields) →
      parseRestaurantVariantsJ j = .error (.attributeError "no attribute get")) ∧
    (∀ fields : List (String × JVal),
      pyTruthy (pyGetD fields "variants" (.arr [])) = false →
      parseRestaurantVariantsJ (.obj fields) = .ok emptyResultJ) ∧
    (∀ j : JVal, wfResponse j = true → ∃ r, parseRestaurantVariantsJ j = .ok r) :=
  ⟨parseJ_not_mapping, parseJ_falsy_variants, parseJ_wf_ok⟩

/-- Witness for the amended claim C3 at three concrete inputs. -/
theorem c3_witness :
    parseRestaurantVariantsJ (.num 3) = .error (.attributeError "no attribute get") ∧
    parseRestaurantVariantsJ (.obj [("variants", .jbool false)]) = .ok emptyResultJ ∧
    (∃ r, parseRestaurantVariantsJ (.obj [("variants", .arr [.obj []])]) = .ok r) :=
  ⟨c3_error_behavior.1 (.num 3) (fun _ h => JVal.noConfusion h),
   c3_error_behavior.2.1 [("variants", .jbool false)] rfl,
   c3_error_behavior.2.2 (.obj [("variants", .arr [.obj []])]) rfl⟩
